import Mathlib

/-!
# Plunge.js: bounds interpolation and the scroll handler

A shallow embedding of `src/plunge.js`.

* JavaScript numbers (pixel offsets, breakpoints) are modelled as `Int`.
* A value that is `null` in the source is `none`; a number `n` is `some n`.
* The mutable `bounds` array is a `List Bounds` threaded through the loops;
  reading a property of a missing array element (a `TypeError` in
  JavaScript) is `none` in the `Option` monad.
* Of the `style` of a transition only its kind is kept (a class name, an
  object of css properties, or absent), which decides whether line 118
  completes.
* The DOM is reduced to the values the handler writes: per
  `plunge-transition` element whether it is shown, its css `top`, `left`,
  `width`, `height`, and the css `top`, `left` of its `plunge-slider`.
-/

namespace Plunge

/-! ## Data model -/

/-- One entry of `settings.transitions`, reduced to what the bounds
computation reads: `at_` is `some n` exactly when `typeof at == 'number'`,
`vertical` is `true` exactly when `vertical === true`. -/
structure TransitionSpec where
  at_ : Option Int
  vertical : Bool
  deriving DecidableEq, Repr

/-- The `transitionBounds` object of the source (lines 122-128). -/
structure Bounds where
  top : Option Int
  bottom : Option Int
  left : Option Int
  right : Option Int
  vertical : Bool
  deriving DecidableEq, Repr

/-- The return value of `settings.position(t)`. -/
structure Position where
  top : Int
  left : Int
  deriving DecidableEq, Repr

/-- What the handler controls of one `plunge-transition` element:
`shown` (`show()` / `hide()`), `frameTop`, `frameLeft` (css `top`, `left`),
`frameWidth`, `frameHeight` (`width(..)`, `height(..)`), and
`contentOffsetTop`, `contentOffsetLeft` (css `top`, `left` of its
`plunge-slider`). -/
structure PanelState where
  shown : Bool
  frameTop : Int
  frameLeft : Int
  frameWidth : Int
  frameHeight : Int
  contentOffsetTop : Int
  contentOffsetLeft : Int
  deriving DecidableEq, Repr

/-- The display: css `top` and `left` of the `plunge-container` and the
state of its `plunge-transition` children, in order. -/
structure Display where
  containerTop : Int
  containerLeft : Int
  panels : List PanelState
  deriving DecidableEq, Repr

/-- Numeric value of a bound in an arithmetic expression or a comparison:
JavaScript converts `null` to `0`. -/
def toNum (v : Option Int) : Int :=
  match v with
  | some n => n
  | none => 0

/-! ## Bounds computation (`$.plunge`, lines 77-171) -/

/-- Lines 121-136: the bounds object built for one transition, given the
`bounds` array built so far. -/
def transitionBounds (bounds : List Bounds) (tr : TransitionSpec) : Bounds :=
  let tb : Bounds :=
    { top := match bounds.getLast? with
             | none => none
             | some b => b.top
      bottom := none
      left := none
      right := none
      vertical := tr.vertical }
  match tr.at_ with
  | some a => if tb.vertical then { tb with left := some a } else { tb with top := some a }
  | none => tb

/-- Lines 121-137, iterated: the `bounds` array the first loop builds from
the `at` and `vertical` of the transitions, one bounds object pushed per
transition. The rest of the loop body (lines 79-119: the elements and the
style of each transition) is in `createTransitions`. -/
def createBounds (transitions : List TransitionSpec) : List Bounds :=
  transitions.foldl (fun bounds tr => bounds ++ [transitionBounds bounds tr]) []

/-- Lines 143-169: the body of the backward loop at index `i`, with the
carried variable `bottom`. Returns the updated array and the updated
`bottom`; `none` when `bounds[i]` or `bounds[i + 1]` does not exist. -/
def interpolateStep (bounds : List Bounds) (bottom : Option Int) (i : Nat) :
    Option (List Bounds × Option Int) :=
  match bounds[i]?, bounds[i + 1]? with
  | some cur, some next =>
    let (cur, next) :=
      if next.vertical then
        if next.left.isNone then
          ({ cur with right := some 0 }, { next with left := some 0 })
        else
          ({ cur with right := next.left }, next)
      else
        ({ cur with bottom := next.top }, next)
    let (cur, bottom) :=
      if cur.bottom.isSome then
        (cur, cur.bottom)
      else
        ({ cur with bottom := bottom }, bottom)
    some ((bounds.set i cur).set (i + 1) next, bottom)
  | _, _ => none

/-- Lines 142-171: the backward loop `for (i = length - 2; i >= 0; i--)`.
The first argument is `i + 1`, the number of iterations still to run. -/
def interpolateLoop : Nat → List Bounds → Option Int → Option (List Bounds)
  | 0, bounds, _ => some bounds
  | i + 1, bounds, bottom =>
    match interpolateStep bounds bottom i with
    | some (bounds, bottom) => interpolateLoop i bounds bottom
    | none => none

/-- Lines 121-171: the `bounds` array handed to `createScrollHandler`, as
computed from the `at` and `vertical` of the transitions. `plungeBounds`
is the same computation with the styling of lines 111-119 in between. -/
def resolveBounds (transitions : List TransitionSpec) : Option (List Bounds) :=
  let bounds := createBounds transitions
  interpolateLoop (bounds.length - 1) bounds none

/-! ## Scroll handler (`createScrollHandler`, lines 193-289) -/

/-- Lines 217-220: the condition under which a transition is drawn. -/
def isVisible (b : Bounds) (x y width height : Int) : Bool :=
  (b.top.isNone || decide (y + height > toNum b.top))
    && (b.bottom.isNone || decide (y < toNum b.bottom))
    && (b.left.isNone || decide (x + width > toNum b.left))
    && (b.right.isNone || decide (x < toNum b.right))

/-- Lines 216-286: the loop body for one transition element. -/
def updateTransition (b : Bounds) (x y width height : Int) (p : PanelState) : PanelState :=
  if isVisible b x y width height then
    let p := { p with shown := true }
    let isClippingTopBound := b.top.isSome && decide (y < toNum b.top)
    let isClippingBottomBound := b.bottom.isSome && decide (y + height > toNum b.bottom)
    let isClippingLeftBound := b.left.isSome && decide (x < toNum b.left)
    let isClippingRightBound := b.right.isSome && decide (x + width > toNum b.right)
    let p :=
      if isClippingTopBound then
        let p :=
          if isClippingBottomBound then
            { p with frameHeight := toNum b.bottom - toNum b.top }
          else
            { p with frameHeight := height + y - toNum b.top }
        { p with frameTop := toNum b.top - y, contentOffsetTop := y - toNum b.top }
      else
        let p :=
          if isClippingBottomBound then
            { p with frameHeight := toNum b.bottom - y }
          else
            { p with frameHeight := height }
        { p with frameTop := 0, contentOffsetTop := 0 }
    if isClippingLeftBound then
      let p :=
        if isClippingRightBound then
          { p with frameWidth := toNum b.right - toNum b.left }
        else
          { p with frameWidth := width + x - toNum b.left }
      { p with frameLeft := toNum b.left - x, contentOffsetLeft := x - toNum b.left }
    else
      let p :=
        if isClippingRightBound then
          { p with frameWidth := toNum b.right - x }
        else
          { p with frameWidth := width }
      { p with frameLeft := 0, contentOffsetLeft := 0 }
  else
    { p with shown := false }

/-- Lines 212-287: the loop over the `plunge-transition` children; the
first argument is the index `i` of the head of the remaining list. `none`
when `bounds[i]` does not exist. -/
def updateTransitions (bounds : List Bounds) (x y width height : Int) :
    Nat → List PanelState → Option (List PanelState)
  | _, [] => some []
  | i, p :: ps =>
    match bounds[i]? with
    | none => none
    | some b =>
      match updateTransitions bounds x y width height (i + 1) ps with
      | none => none
      | some rest => some (updateTransition b x y width height p :: rest)

/-- Lines 194-288: the scroll handler at scroll offset `t`, for a container
of the given `width` and `height`. -/
def scrollHandler (position : Int → Position) (bounds : List Bounds) (width height : Int)
    (t : Int) (d : Display) : Option Display :=
  let pos := position t
  let x := pos.left
  let y := pos.top
  match updateTransitions bounds x y width height 0 d.panels with
  | none => none
  | some panels => some { containerTop := y, containerLeft := x, panels := panels }

/-- Lines 80-101: a freshly created `plunge-transition` element: hidden,
at `top: 0`, `left: 0`, of the container's size, its slider at
`top: 0`, `left: 0`. -/
def newPanel (width height : Int) : PanelState :=
  { shown := false, frameTop := 0, frameLeft := 0, frameWidth := width, frameHeight := height,
    contentOffsetTop := 0, contentOffsetLeft := 0 }

/-- Lines 78-138: the `plunge-transition` children created by the first
loop, one per transition. -/
def createPanels (transitions : List TransitionSpec) (width height : Int) : List PanelState :=
  transitions.map (fun _ => newPanel width height)

/-- The `bounds` field of a region at index `i` of a resolved array, for
stating properties of single regions. -/
def regionAt (r : Option (List Bounds)) (i : Nat) : Option Bounds :=
  match r with
  | some bounds => bounds[i]?
  | none => none

/-! ## The first loop in full (`$.plunge`, lines 77-138) -/

/-- The `style` of a transition as lines 112-119 see it: a string (a class
name), an object of css properties, or absent (`undefined`). -/
inductive Style where
  | className
  | properties
  | missing
  deriving DecidableEq, Repr

/-- One entry of `settings.transitions`: its `style`, and its `at` and
`vertical` as in `TransitionSpec`. -/
structure Transition where
  style : Style
  at_ : Option Int
  vertical : Bool
  deriving DecidableEq, Repr

/-- What the bounds computation reads of a transition. -/
def Transition.spec (tr : Transition) : TransitionSpec :=
  { at_ := tr.at_, vertical := tr.vertical }

/-- Lines 111-119: the style is given to the `plunge-icon`, a string
through `addClass`, anything else through `.css(..)`. There is no guard for
an absent style (the container's own style is guarded at line 65), and
jQuery's `.css(undefined)` throws a `TypeError`: `none`. -/
def applyStyle : Style → Option Unit
  | .className => some ()
  | .properties => some ()
  | .missing => none

/-- Lines 78-138: the first loop. For each transition it appends a
`plunge-transition` element (lines 80-109), applies the style (lines
111-119) and pushes the bounds object (lines 121-137); `none` when a style
cannot be applied, which ends `$.plunge` with an exception. -/
def createTransitions (width height : Int) :
    List Transition → List PanelState → List Bounds → Option (List PanelState × List Bounds)
  | [], panels, bounds => some (panels, bounds)
  | tr :: rest, panels, bounds =>
    match applyStyle tr.style with
    | none => none
    | some _ =>
      createTransitions width height rest (panels ++ [newPanel width height])
        (bounds ++ [transitionBounds bounds tr.spec])

/-- Lines 77-171: the first loop and the backward loop, giving the `bounds`
array handed to `createScrollHandler`; `none` when `$.plunge` throws before
it gets there. -/
def plungeBounds (width height : Int) (transitions : List Transition) : Option (List Bounds) :=
  match createTransitions width height transitions [] [] with
  | none => none
  | some (_, bounds) => interpolateLoop (bounds.length - 1) bounds none

/-- Swap the two axes of a region. -/
def Bounds.transpose (b : Bounds) : Bounds :=
  { top := b.left, bottom := b.right, left := b.top, right := b.bottom, vertical := !b.vertical }

/-- Swap the two axes of a panel's frame. -/
def PanelState.transpose (p : PanelState) : PanelState :=
  { shown := p.shown, frameTop := p.frameLeft, frameLeft := p.frameTop,
    frameWidth := p.frameHeight, frameHeight := p.frameWidth,
    contentOffsetTop := p.contentOffsetLeft, contentOffsetLeft := p.contentOffsetTop }

/-- Lines 141-171: the array and the carried `bottom` at the moment the
backward loop reaches the counter `stop` (the loop variable is `i = stop -
1` and its body has not run yet for it), for the loop started at counter
`i + 1`; `none` when an array read fails on the way. -/
def interpolateUntil (stop : Nat) :
    Nat → List Bounds → Option Int → Option (List Bounds × Option Int)
  | 0, bounds, bottom => some (bounds, bottom)
  | i + 1, bounds, bottom =>
    if i + 1 ≤ stop then
      some (bounds, bottom)
    else
      match interpolateStep bounds bottom i with
      | some (bounds, bottom) => interpolateUntil stop i bounds bottom
      | none => none

/-! ## The options documented in the source (lines 4-20) -/

/-- Lines 7-11: `[{}, {at: 300}, {at: 700, vertical: true}]` (styles
omitted). -/
def documentedTransitions : List TransitionSpec :=
  [{ at_ := none, vertical := false },
   { at_ := some 300, vertical := false },
   { at_ := some 700, vertical := true }]

/-- Lines 7-11 with their styles: `[{style: {..}}, {at: 300, style: {..}},
{at: 700, vertical: true, style: {..}}]`. -/
def documentedOptions : List Transition :=
  [{ style := .properties, at_ := none, vertical := false },
   { style := .properties, at_ := some 300, vertical := false },
   { style := .properties, at_ := some 700, vertical := true }]

/-- Lines 12-14: `position(t) = { top: 2*t, left: 2*t }`. -/
def documentedPosition (t : Int) : Position :=
  { top := 2 * t, left := 2 * t }

/-! ## Closed forms of the loops, used in the proofs -/

/-- The `top` of the first entry of a list of bounds that is not vertical
and has a concrete `top`; `none` when there is no such entry. -/
def nextBottom : List Bounds → Option Int
  | [] => none
  | b :: rest => if b.vertical = false ∧ b.top.isSome = true then b.top else nextBottom rest

/-- Entry `i` of the `bounds` array once the backward loop has run its
iterations for the indices `c, c + 1, ..`, where `B` is the array the loop
started from (all `bottom` and `right` still `null`) and `b` is `B[i]`. -/
def interpolated (B : List Bounds) (c i : Nat) (b : Bounds) : Bounds :=
  { top := b.top
    bottom := if c ≤ i then nextBottom (B.drop (i + 1)) else none
    left := if c < i ∧ b.vertical = true ∧ b.left = none then some 0 else b.left
    right :=
      match B[i + 1]? with
      | some next => if c ≤ i ∧ next.vertical = true then some (toNum next.left) else none
      | none => none
    vertical := b.vertical }

/-- The sum of the `frameHeight` values of the shown panels. -/
def shownHeight : List PanelState → Int
  | [] => 0
  | p :: ps => (if p.shown = true then p.frameHeight else 0) + shownHeight ps

/-- The regions of a purely horizontal stack: the first from `top` to the
first breakpoint, each next one from a breakpoint to the following one, the
last one open at the bottom; all open to the left and to the right. -/
def stackedRegions (top : Option Int) : List Int → List Bounds
  | [] => [{ top := top, bottom := none, left := none, right := none, vertical := false }]
  | a :: rest =>
    { top := top, bottom := some a, left := none, right := none, vertical := false } ::
      stackedRegions (some a) rest

/-! ## The scroll handler: visibility and frame geometry -/

theorem updateTransition_shown (b : Bounds) (x y width height : Int) (p : PanelState) :
    (updateTransition b x y width height p).shown = isVisible b x y width height := by
  unfold updateTransition
  cases isVisible b x y width height
  · rfl
  · simp only [if_true]
    cases (b.top.isSome && decide (y < toNum b.top)) <;>
    cases (b.bottom.isSome && decide (y + height > toNum b.bottom)) <;>
    cases (b.left.isSome && decide (x < toNum b.left)) <;>
    cases (b.right.isSome && decide (x + width > toNum b.right)) <;>
    rfl

theorem isVisible_iff (b : Bounds) (x y width height : Int) :
    isVisible b x y width height = true ↔
      (b.top = none ∨ ∃ t, b.top = some t ∧ y + height > t) ∧
      (b.bottom = none ∨ ∃ t, b.bottom = some t ∧ y < t) ∧
      (b.left = none ∨ ∃ l, b.left = some l ∧ x + width > l) ∧
      (b.right = none ∨ ∃ r, b.right = some r ∧ x < r) := by
  obtain ⟨tp, bt, lf, rt, v⟩ := b
  cases tp <;> cases bt <;> cases lf <;> cases rt <;>
    simp [isVisible, toNum, and_assoc]

/-- C1: the handler shows a panel exactly when, on each of the four sides,
the bound is unbounded or the container reaches past it (`y + height > top`,
`y < bottom`, `x + width > left`, `x < right`), and hides it otherwise; for
a region bounded only by `top = 300` and a container of height 1 the panel
is hidden at `y = 299` and shown at `y = 301`. -/
theorem C1_visibility_test (b : Bounds) (x y width height : Int) (p : PanelState) (v : Bool) :
    ((updateTransition b x y width height p).shown = true ↔
      (b.top = none ∨ ∃ t, b.top = some t ∧ y + height > t) ∧
      (b.bottom = none ∨ ∃ t, b.bottom = some t ∧ y < t) ∧
      (b.left = none ∨ ∃ l, b.left = some l ∧ x + width > l) ∧
      (b.right = none ∨ ∃ r, b.right = some r ∧ x < r)) ∧
    ((updateTransition b x y width height p).shown = false ↔
      ¬ ((b.top = none ∨ ∃ t, b.top = some t ∧ y + height > t) ∧
        (b.bottom = none ∨ ∃ t, b.bottom = some t ∧ y < t) ∧
        (b.left = none ∨ ∃ l, b.left = some l ∧ x + width > l) ∧
        (b.right = none ∨ ∃ r, b.right = some r ∧ x < r))) ∧
    (updateTransition
        { top := some 300, bottom := none, left := none, right := none, vertical := v }
        x 299 width 1 p).shown = false ∧
    (updateTransition
        { top := some 300, bottom := none, left := none, right := none, vertical := v }
        x 301 width 1 p).shown = true := by
  refine ⟨?_, ?_, ?_, ?_⟩
  · rw [updateTransition_shown, isVisible_iff]
  · rw [updateTransition_shown, ← isVisible_iff]
    simp
  · rw [updateTransition_shown]
    simp [isVisible, toNum]
  · rw [updateTransition_shown]
    simp [isVisible, toNum]

theorem updateTransition_vertical (b : Bounds) (x y width height : Int) (p : PanelState)
    (hvis : isVisible b x y width height = true) :
    (updateTransition b x y width height p).frameHeight =
        (if (b.top.isSome && decide (y < toNum b.top)) = true then
          (if (b.bottom.isSome && decide (y + height > toNum b.bottom)) = true then
            toNum b.bottom - toNum b.top else height + y - toNum b.top)
        else
          (if (b.bottom.isSome && decide (y + height > toNum b.bottom)) = true then
            toNum b.bottom - y else height)) ∧
    (updateTransition b x y width height p).frameTop =
        (if (b.top.isSome && decide (y < toNum b.top)) = true then toNum b.top - y else 0) ∧
    (updateTransition b x y width height p).contentOffsetTop =
        (if (b.top.isSome && decide (y < toNum b.top)) = true then y - toNum b.top else 0) := by
  unfold updateTransition
  simp only [hvis, if_true]
  cases (b.top.isSome && decide (y < toNum b.top)) <;>
  cases (b.bottom.isSome && decide (y + height > toNum b.bottom)) <;>
  cases (b.left.isSome && decide (x < toNum b.left)) <;>
  cases (b.right.isSome && decide (x + width > toNum b.right)) <;>
  exact ⟨rfl, rfl, rfl⟩

theorem updateTransition_horizontal (b : Bounds) (x y width height : Int) (p : PanelState)
    (hvis : isVisible b x y width height = true) :
    (updateTransition b x y width height p).frameWidth =
        (if (b.left.isSome && decide (x < toNum b.left)) = true then
          (if (b.right.isSome && decide (x + width > toNum b.right)) = true then
            toNum b.right - toNum b.left else width + x - toNum b.left)
        else
          (if (b.right.isSome && decide (x + width > toNum b.right)) = true then
            toNum b.right - x else width)) ∧
    (updateTransition b x y width height p).frameLeft =
        (if (b.left.isSome && decide (x < toNum b.left)) = true then toNum b.left - x else 0) ∧
    (updateTransition b x y width height p).contentOffsetLeft =
        (if (b.left.isSome && decide (x < toNum b.left)) = true then x - toNum b.left else 0) := by
  unfold updateTransition
  simp only [hvis, if_true]
  cases (b.top.isSome && decide (y < toNum b.top)) <;>
  cases (b.bottom.isSome && decide (y + height > toNum b.bottom)) <;>
  cases (b.left.isSome && decide (x < toNum b.left)) <;>
  cases (b.right.isSome && decide (x + width > toNum b.right)) <;>
  exact ⟨rfl, rfl, rfl⟩

theorem clip_flag_iff (v : Option Int) (c : Int → Prop) [DecidablePred c] :
    (v.isSome && decide (c (toNum v))) = true ↔ ∃ n, v = some n ∧ c n := by
  cases v <;> simp [toNum]

/-- C2: for a visible region the vertical frame is: both top and bottom
clipping: `frameHeight = bottom - top`, `frameTop = top - y`,
`contentOffsetTop = y - top`; only top clipping: `frameHeight =
height + y - top`, `frameTop = top - y`, `contentOffsetTop = y - top`; only
bottom clipping: `frameHeight = bottom - y`, `frameTop = 0`,
`contentOffsetTop = 0`; neither: `frameHeight = height`, `frameTop = 0`,
`contentOffsetTop = 0`. Here top clips when `top` is set and `y < top`,
bottom clips when `bottom` is set and `y + height > bottom`. -/
theorem C2_vertical_frame (b : Bounds) (x y width height : Int) (p : PanelState)
    (hvis : isVisible b x y width height = true) :
    (∀ tp bt, b.top = some tp → y < tp → b.bottom = some bt → y + height > bt →
      (updateTransition b x y width height p).frameHeight = bt - tp ∧
      (updateTransition b x y width height p).frameTop = tp - y ∧
      (updateTransition b x y width height p).contentOffsetTop = y - tp) ∧
    (∀ tp, b.top = some tp → y < tp →
      ¬ (∃ bt, b.bottom = some bt ∧ y + height > bt) →
      (updateTransition b x y width height p).frameHeight = height + y - tp ∧
      (updateTransition b x y width height p).frameTop = tp - y ∧
      (updateTransition b x y width height p).contentOffsetTop = y - tp) ∧
    (∀ bt, ¬ (∃ tp, b.top = some tp ∧ y < tp) →
      b.bottom = some bt → y + height > bt →
      (updateTransition b x y width height p).frameHeight = bt - y ∧
      (updateTransition b x y width height p).frameTop = 0 ∧
      (updateTransition b x y width height p).contentOffsetTop = 0) ∧
    (¬ (∃ tp, b.top = some tp ∧ y < tp) →
      ¬ (∃ bt, b.bottom = some bt ∧ y + height > bt) →
      (updateTransition b x y width height p).frameHeight = height ∧
      (updateTransition b x y width height p).frameTop = 0 ∧
      (updateTransition b x y width height p).contentOffsetTop = 0) := by
  obtain ⟨hH, hT, hO⟩ := updateTransition_vertical b x y width height p hvis
  rw [hH, hT, hO]
  have eT := clip_flag_iff b.top (fun n => y < n)
  have eB := clip_flag_iff b.bottom (fun n => y + height > n)
  refine ⟨?_, ?_, ?_, ?_⟩
  · intro tp bt h1 h2 h3 h4
    rw [if_pos (eT.mpr ⟨tp, h1, h2⟩), if_pos (eT.mpr ⟨tp, h1, h2⟩),
      if_pos (eT.mpr ⟨tp, h1, h2⟩), if_pos (eB.mpr ⟨bt, h3, h4⟩)]
    simp [h1, h3, toNum]
  · intro tp h1 h2 h3
    rw [if_pos (eT.mpr ⟨tp, h1, h2⟩), if_pos (eT.mpr ⟨tp, h1, h2⟩),
      if_pos (eT.mpr ⟨tp, h1, h2⟩), if_neg (fun h => h3 (eB.mp h))]
    simp [h1, toNum]
  · intro bt h1 h3 h4
    rw [if_neg (fun h => h1 (eT.mp h)), if_neg (fun h => h1 (eT.mp h)),
      if_neg (fun h => h1 (eT.mp h)), if_pos (eB.mpr ⟨bt, h3, h4⟩)]
    simp [h3, toNum]
  · intro h1 h3
    rw [if_neg (fun h => h1 (eT.mp h)), if_neg (fun h => h1 (eT.mp h)),
      if_neg (fun h => h1 (eT.mp h)), if_neg (fun h => h3 (eB.mp h))]
    simp

theorem isVisible_transpose (b : Bounds) (x y width height : Int) :
    isVisible b.transpose y x height width = isVisible b x y width height := by
  simp only [isVisible, Bounds.transpose]
  cases (b.top.isNone || decide (y + height > toNum b.top)) <;>
  cases (b.bottom.isNone || decide (y < toNum b.bottom)) <;>
  cases (b.left.isNone || decide (x + width > toNum b.left)) <;>
  cases (b.right.isNone || decide (x < toNum b.right)) <;> rfl

/-- C3: the horizontal frame values `(frameLeft, frameWidth,
contentOffsetLeft)` of a visible region at `(x, width, left, right)` are the
vertical frame values `(frameTop, frameHeight, contentOffsetTop)` of any
visible region whose `(y, height, top, bottom)` are `(x, width, left,
right)`; and transposing region, position and size transposes the frame
the handler computes. -/
theorem C3_horizontal_mirror (b : Bounds) (x y width height : Int) (p : PanelState) :
    (isVisible b x y width height = true →
      ∀ (b' : Bounds) (x' width' : Int) (q : PanelState),
        b'.top = b.left → b'.bottom = b.right →
        isVisible b' x' x width' width = true →
        (updateTransition b x y width height p).frameLeft =
          (updateTransition b' x' x width' width q).frameTop ∧
        (updateTransition b x y width height p).frameWidth =
          (updateTransition b' x' x width' width q).frameHeight ∧
        (updateTransition b x y width height p).contentOffsetLeft =
          (updateTransition b' x' x width' width q).contentOffsetTop) ∧
    updateTransition b.transpose y x height width p.transpose =
      (updateTransition b x y width height p).transpose := by
  constructor
  · intro hvis b' x' width' q ht hb hvis'
    obtain ⟨hW, hL, hO⟩ := updateTransition_horizontal b x y width height p hvis
    obtain ⟨hH, hT, hO'⟩ := updateTransition_vertical b' x' x width' width q hvis'
    rw [hW, hL, hO, hH, hT, hO', ht, hb]
    exact ⟨rfl, rfl, rfl⟩
  · unfold updateTransition
    rw [isVisible_transpose]
    cases isVisible b x y width height
    · rfl
    · simp only [if_true, Bounds.transpose]
      cases (b.top.isSome && decide (y < toNum b.top)) <;>
      cases (b.bottom.isSome && decide (y + height > toNum b.bottom)) <;>
      cases (b.left.isSome && decide (x < toNum b.left)) <;>
      cases (b.right.isSome && decide (x + width > toNum b.right)) <;>
      rfl

/-- C3 at a region clipped on its left edge: both frames are offset by 10. -/
theorem C3_horizontal_mirror_witness :
    isVisible ⟨some 300, none, some 50, some 120, false⟩ 40 310 100 20 = true ∧
    ((⟨some 50, some 120, none, none, true⟩ : Bounds).top = (⟨some 300, none, some 50, some 120, false⟩ : Bounds).left) ∧
    isVisible ⟨some 50, some 120, none, none, true⟩ 7 40 9 100 = true ∧
    (updateTransition ⟨some 300, none, some 50, some 120, false⟩ 40 310 100 20 (newPanel 100 20)).frameLeft = 10 ∧
    (updateTransition ⟨some 50, some 120, none, none, true⟩ 7 40 9 100 (newPanel 9 100)).frameTop = 10 ∧
    (updateTransition ⟨some 300, none, some 50, some 120, false⟩ 40 310 100 20 (newPanel 100 20)).frameWidth =
      (updateTransition ⟨some 50, some 120, none, none, true⟩ 7 40 9 100 (newPanel 9 100)).frameHeight :=
  ⟨by decide, rfl, by decide, by decide, by decide,
   ((C3_horizontal_mirror ⟨some 300, none, some 50, some 120, false⟩ 40 310 100 20 (newPanel 100 20)).1
      (by decide) ⟨some 50, some 120, none, none, true⟩ 7 9 (newPanel 9 100) rfl rfl (by decide)).2.1⟩

/-- C2 at a region clipped at top and bottom: a frame of height 50, offset 20. -/
theorem C2_vertical_frame_witness :
    isVisible ⟨some 300, some 350, none, none, false⟩ 0 280 100 100 = true ∧
    (updateTransition ⟨some 300, some 350, none, none, false⟩ 0 280 100 100 (newPanel 100 100)).frameHeight = 50 ∧
    (updateTransition ⟨some 300, some 350, none, none, false⟩ 0 280 100 100 (newPanel 100 100)).frameTop = 20 ∧
    (updateTransition ⟨some 300, some 350, none, none, false⟩ 0 280 100 100 (newPanel 100 100)).contentOffsetTop = -20 :=
  ⟨by decide,
   (C2_vertical_frame ⟨some 300, some 350, none, none, false⟩ 0 280 100 100 (newPanel 100 100)
      (by decide)).1 300 350 rfl (by decide) rfl (by decide)⟩

/-! ## Bounds computation: the first loop -/

theorem createBounds_concat (ts : List TransitionSpec) (t : TransitionSpec) :
    createBounds (ts ++ [t]) = createBounds ts ++ [transitionBounds (createBounds ts) t] := by
  simp [createBounds, List.foldl_append]

theorem createBounds_length (ts : List TransitionSpec) :
    (createBounds ts).length = ts.length := by
  induction ts using List.reverseRecOn with
  | nil => rfl
  | append_singleton ts t ih => rw [createBounds_concat]; simp [ih]

theorem createBounds_getElem? (ts : List TransitionSpec) (i : Nat) (t : TransitionSpec)
    (h : ts[i]? = some t) :
    (createBounds ts)[i]? = some (transitionBounds ((createBounds ts).take i) t) := by
  induction ts using List.reverseRecOn with
  | nil => simp at h
  | append_singleton ts u ih =>
    rw [createBounds_concat]
    by_cases hi : i < ts.length
    · rw [List.getElem?_append_left hi] at h
      rw [List.getElem?_append_left (by rw [createBounds_length]; exact hi),
        List.take_append_of_le_length (by rw [createBounds_length]; omega)]
      exact ih h
    · have hlen := (List.getElem?_eq_some.mp h).1
      simp only [List.length_append, List.length_singleton] at hlen
      have hi' : i = ts.length := by omega
      subst hi'
      rw [List.getElem?_concat_length] at h
      cases h
      rw [← createBounds_length ts, List.getElem?_concat_length,
        List.take_left' rfl]

theorem transitionBounds_fields (bounds : List Bounds) (t : TransitionSpec) :
    (transitionBounds bounds t).bottom = none ∧
    (transitionBounds bounds t).right = none ∧
    (transitionBounds bounds t).vertical = t.vertical ∧
    (transitionBounds bounds t).left = (if t.vertical = true then t.at_ else none) ∧
    (transitionBounds bounds t).top =
      (if t.vertical = false ∧ t.at_.isSome = true then t.at_
       else match bounds.getLast? with
            | none => none
            | some b => b.top) := by
  obtain ⟨a, v⟩ := t
  cases a <;> cases v <;> simp [transitionBounds]

/-! ## Bounds computation: the backward loop -/

/-- The loop invariant: the array `st` and the carried `bottom` when the
iterations for the indices `c, c + 1, ..` have run. -/
theorem interpolateStep_invariant (B st : List Bounds) (tracked : Option Int) (c : Nat)
    (hc : c + 1 < B.length)
    (hst : ∀ i, st[i]? = (B[i]?).map (interpolated B (c + 1) i))
    (htr : tracked = nextBottom (B.drop (c + 2))) :
    ∃ st', interpolateStep st tracked c = some (st', nextBottom (B.drop (c + 1))) ∧
      ∀ i, st'[i]? = (B[i]?).map (interpolated B c i) := by
  have hlen : st.length = B.length := by
    by_contra hne
    rcases Nat.lt_or_gt_of_ne hne with h | h
    · have h1 := hst st.length
      rw [List.getElem?_eq_none (le_refl _), List.getElem?_eq_getElem h] at h1
      simp at h1
    · have h1 := hst B.length
      rw [List.getElem?_eq_none (le_refl _), List.getElem?_eq_getElem h] at h1
      simp at h1
  have hbc : B[c]? = some B[c] := List.getElem?_eq_getElem (by omega)
  have hbn : B[c + 1]? = some B[c + 1] := List.getElem?_eq_getElem hc
  have hdrop : B.drop (c + 1) = B[c + 1] :: B.drop (c + 2) := List.drop_eq_getElem_cons hc
  have h1 := hst c
  have h2 := hst (c + 1)
  rw [hbc] at h1
  rw [hbn] at h2
  simp only [Option.map_some'] at h1 h2
  generalize B[c] = bc at *
  generalize B[c + 1] = bn at *
  obtain ⟨bnt, bnb, bnl, bnr, bnv⟩ := bn
  have hb2 : B[c + 1 + 1]? = B[c + 2]? := rfl
  refine ⟨(st.set c (interpolated B c c bc)).set (c + 1)
    (interpolated B c (c + 1) ⟨bnt, bnb, bnl, bnr, bnv⟩), ?_, ?_⟩
  · unfold interpolateStep
    rw [h1, h2, htr, hdrop]
    cases bnv <;> cases bnl <;> cases bnt <;>
      simp [interpolated, hbn, hdrop, nextBottom, toNum]
  · intro i
    rw [List.getElem?_set, List.getElem?_set, List.length_set]
    by_cases e1 : c + 1 = i
    · subst e1
      rw [if_pos rfl, if_pos (by omega), hbn]
      rfl
    · rw [if_neg e1]
      by_cases e2 : c = i
      · subst e2
        rw [if_pos rfl, if_pos (by omega), hbc]
        rfl
      · rw [if_neg e2, hst i]
        cases hbi : B[i]? with
        | none => rfl
        | some bi =>
          have k1 : (c + 1 ≤ i) = (c ≤ i) := by apply propext; omega
          have k2 : (c + 1 < i) = (c < i) := by apply propext; omega
          simp only [Option.map_some', interpolated, k1, k2]

theorem interpolateLoop_invariant (B : List Bounds) (c : Nat) :
    ∀ (st : List Bounds) (tracked : Option Int), c ≤ B.length - 1 →
      (∀ i, st[i]? = (B[i]?).map (interpolated B c i)) →
      tracked = nextBottom (B.drop (c + 1)) →
      ∃ R, interpolateLoop c st tracked = some R ∧
        ∀ i, R[i]? = (B[i]?).map (interpolated B 0 i) := by
  induction c with
  | zero =>
    intro st tracked _ hst _
    exact ⟨st, rfl, hst⟩
  | succ c ih =>
    intro st tracked hc hst htr
    obtain ⟨st', hstep, hst'⟩ :=
      interpolateStep_invariant B st tracked c (by omega) hst htr
    obtain ⟨R, hR, hRi⟩ := ih st' (nextBottom (B.drop (c + 1))) (by omega) hst' rfl
    refine ⟨R, ?_, hRi⟩
    simp only [interpolateLoop, hstep]
    exact hR

theorem interpolated_initial (B : List Bounds)
    (hB : ∀ (i : Nat) (b : Bounds), B[i]? = some b → b.bottom = none ∧ b.right = none)
    (i : Nat) :
    B[i]? = (B[i]?).map (interpolated B (B.length - 1) i) := by
  cases hbi : B[i]? with
  | none => rfl
  | some b =>
    obtain ⟨h1, h2⟩ := hB i b hbi
    have hi : i < B.length := (List.getElem?_eq_some.mp hbi).1
    obtain ⟨bt, bb, bl, br, bv⟩ := b
    simp only at h1 h2
    subst h1 h2
    simp only [Option.map_some', interpolated, Option.some.injEq, Bounds.mk.injEq, true_and,
      and_true]
    refine ⟨?_, ?_, ?_⟩
    · split
      · rw [List.drop_of_length_le (by omega)]
        rfl
      · rfl
    · rw [if_neg (by omega)]
    · cases hn : B[i + 1]? with
      | none => rfl
      | some nx =>
        have hi1 : i + 1 < B.length := (List.getElem?_eq_some.mp hn).1
        simp only
        rw [if_neg (by omega)]

theorem createBounds_open (ts : List TransitionSpec) (i : Nat) (b : Bounds)
    (h : (createBounds ts)[i]? = some b) : b.bottom = none ∧ b.right = none := by
  have hi : i < ts.length := by
    rw [← createBounds_length]
    exact (List.getElem?_eq_some.mp h).1
  rw [createBounds_getElem? ts i ts[i] (List.getElem?_eq_getElem hi)] at h
  cases h
  exact ⟨(transitionBounds_fields _ _).1, (transitionBounds_fields _ _).2.1⟩

/-- The resolved array, entry by entry, in terms of the array built by the
first loop. -/
theorem resolveBounds_spec (ts : List TransitionSpec) :
    ∃ R, resolveBounds ts = some R ∧ R.length = ts.length ∧
      ∀ i, R[i]? = ((createBounds ts)[i]?).map (interpolated (createBounds ts) 0 i) := by
  obtain ⟨R, hR, hRi⟩ := interpolateLoop_invariant (createBounds ts)
    ((createBounds ts).length - 1) (createBounds ts) none (le_refl _)
    (interpolated_initial _ (createBounds_open ts))
    (by rw [List.drop_of_length_le (by omega)]; rfl)
  refine ⟨R, hR, ?_, hRi⟩
  rw [← createBounds_length ts]
  by_contra hne
  rcases Nat.lt_or_gt_of_ne hne with h | h
  · have h1 := hRi R.length
    rw [List.getElem?_eq_none (le_refl _), List.getElem?_eq_getElem h] at h1
    simp at h1
  · have h1 := hRi (createBounds ts).length
    rw [List.getElem?_eq_none (le_refl _), List.getElem?_eq_getElem h] at h1
    simp at h1

/-! ## Bounds computation: the resolved regions -/

theorem nextBottom_eq_none_iff (l : List Bounds) :
    nextBottom l = none ↔ ∀ b ∈ l, ¬ (b.vertical = false ∧ b.top.isSome = true) := by
  induction l with
  | nil => simp [nextBottom]
  | cons b rest ih =>
    simp only [nextBottom, List.mem_cons, forall_eq_or_imp]
    by_cases hb : b.vertical = false ∧ b.top.isSome = true
    · rw [if_pos hb]
      constructor
      · intro h
        rw [h] at hb
        simp at hb
      · intro h
        exact absurd hb h.1
    · rw [if_neg hb, ih]
      exact ⟨fun h => ⟨hb, h⟩, fun h => h.2⟩

/-- Entry `i` of the resolved array, from the transition at index `i`. -/
theorem resolveBounds_getElem? (ts : List TransitionSpec) (i : Nat) (t : TransitionSpec)
    (h : ts[i]? = some t) :
    ∃ R, resolveBounds ts = some R ∧ R.length = ts.length ∧
      (createBounds ts)[i]? = some (transitionBounds ((createBounds ts).take i) t) ∧
      R[i]? = some (interpolated (createBounds ts) 0 i
        (transitionBounds ((createBounds ts).take i) t)) := by
  obtain ⟨R, hR, hlen, hRi⟩ := resolveBounds_spec ts
  refine ⟨R, hR, hlen, createBounds_getElem? ts i t h, ?_⟩
  rw [hRi i, createBounds_getElem? ts i t h]
  rfl

theorem updateTransitions_isSome (bounds : List Bounds) (x y width height : Int) :
    ∀ (ps : List PanelState) (i : Nat), i + ps.length ≤ bounds.length →
      ∃ ps', updateTransitions bounds x y width height i ps = some ps' ∧
        ps'.length = ps.length := by
  intro ps
  induction ps with
  | nil => intro i _; exact ⟨[], rfl, rfl⟩
  | cons p ps ih =>
    intro i hi
    simp only [List.length_cons] at hi
    obtain ⟨rest, hrest, hl⟩ := ih (i + 1) (by omega)
    have hb : bounds[i]? = some bounds[i] := List.getElem?_eq_getElem (by omega)
    refine ⟨updateTransition bounds[i] x y width height p :: rest, ?_, by simp [hl]⟩
    simp only [updateTransitions, hb, hrest]

theorem createTransitions_styled (width height : Int) :
    ∀ (trs : List Transition) (panels : List PanelState) (bounds : List Bounds),
      (∀ tr ∈ trs, tr.style ≠ Style.missing) →
      createTransitions width height trs panels bounds =
        some (panels ++ trs.map (fun _ => newPanel width height),
          (trs.map Transition.spec).foldl
            (fun bounds tr => bounds ++ [transitionBounds bounds tr]) bounds) := by
  intro trs
  induction trs with
  | nil => intro panels bounds _; simp [createTransitions]
  | cons tr rest ih =>
    intro panels bounds h
    have htr : tr.style ≠ Style.missing := h tr (List.mem_cons_self _ _)
    have hap : ∃ u, applyStyle tr.style = some u := by
      cases hs : tr.style with
      | className => exact ⟨(), rfl⟩
      | properties => exact ⟨(), rfl⟩
      | missing => exact absurd hs htr
    obtain ⟨u, hu⟩ := hap
    simp only [createTransitions, hu, List.map_cons, List.foldl_cons]
    rw [ih _ _ (fun t ht => h t (List.mem_cons_of_mem _ ht))]
    simp

theorem createTransitions_missing (width height : Int) :
    ∀ (trs : List Transition) (panels : List PanelState) (bounds : List Bounds)
      (tr : Transition), tr ∈ trs → tr.style = Style.missing →
      createTransitions width height trs panels bounds = none := by
  intro trs
  induction trs with
  | nil => intro panels bounds tr hm _; cases hm
  | cons t0 rest ih =>
    intro panels bounds tr hm hs
    cases h0 : applyStyle t0.style with
    | none => simp only [createTransitions, h0]
    | some u =>
      simp only [createTransitions, h0]
      rcases List.mem_cons.mp hm with heq | hrest
      · subst heq
        rw [hs] at h0
        cases h0
      · exact ih _ _ tr hrest hs

/-- When every transition has a style, `$.plunge` reaches the bounds
computation, and its `bounds` array is the one computed from the `at` and
`vertical` of the transitions. -/
theorem plungeBounds_styled (width height : Int) (trs : List Transition)
    (h : ∀ tr ∈ trs, tr.style ≠ Style.missing) :
    plungeBounds width height trs = resolveBounds (trs.map Transition.spec) := by
  simp only [plungeBounds, createTransitions_styled width height trs [] [] h, resolveBounds,
    createBounds]

/-- When some transition has no style, `$.plunge` throws at line 118 and
produces no `bounds` array. -/
theorem plungeBounds_missing (width height : Int) (trs : List Transition) (tr : Transition)
    (hm : tr ∈ trs) (hs : tr.style = Style.missing) :
    plungeBounds width height trs = none := by
  simp only [plungeBounds, createTransitions_missing width height trs [] [] tr hm hs]

/-- C4: for `[{style: {..}}, {at: 300}]`, whose second transition has no
`style`, line 118 throws and no `bounds` array is produced, against the
claim that resolution never fails for any list of transition specs; with a
style on the second transition the same list resolves to one region per
spec. -/
theorem C4_unstyled_transition_fails :
    plungeBounds 200 100
        [{ style := .properties, at_ := none, vertical := false },
         { style := .missing, at_ := some 300, vertical := false }] = none ∧
    plungeBounds 200 100
        [{ style := .properties, at_ := none, vertical := false },
         { style := .properties, at_ := some 300, vertical := false }] =
      some [{ top := none, bottom := some 300, left := none, right := none, vertical := false },
            { top := some 300, bottom := none, left := none, right := none,
              vertical := false }] := by
  decide

/-- The bounds computation on the `at` and `vertical` of the transitions
never fails and returns one region per spec, of the same length and in the
same order (region `i` carries the axis flag of spec `i` and its
breakpoint, as `left` for a vertical spec and as `top` otherwise), and the
scroll handler, run on as many panels as there are specs, finds the region
of every panel. Whether `$.plunge` gets as far as this computation depends
on the styles: see `plungeBounds_styled` and `plungeBounds_missing`. -/
theorem resolveBounds_total (ts : List TransitionSpec) :
    ∃ R, resolveBounds ts = some R ∧ R.length = ts.length ∧
      (∀ (i : Nat) (t : TransitionSpec), ts[i]? = some t →
        ∃ b : Bounds, R[i]? = some b ∧ b.vertical = t.vertical ∧
          ∀ a, t.at_ = some a →
            (t.vertical = true → b.left = some a) ∧ (t.vertical = false → b.top = some a)) ∧
      (∀ (position : Int → Position) (width height t : Int) (d : Display),
        d.panels.length = ts.length →
        ∃ d', scrollHandler position R width height t d = some d' ∧
          d'.panels.length = ts.length) := by
  obtain ⟨R, hR, hlen, hRi⟩ := resolveBounds_spec ts
  refine ⟨R, hR, hlen, ?_, ?_⟩
  · intro i t ht
    obtain ⟨R', hR', _, _, hi⟩ := resolveBounds_getElem? ts i t ht
    rw [hR] at hR'
    cases hR'
    refine ⟨_, hi, ?_, ?_⟩
    · exact (transitionBounds_fields _ _).2.2.1
    · intro a ha
      obtain ⟨_, _, hv, hl, htop⟩ := transitionBounds_fields ((createBounds ts).take i) t
      constructor
      · intro hvt
        simp only [interpolated]
        rw [hl, if_pos hvt, ha, if_neg (by simp)]
      · intro hvt
        simp only [interpolated]
        rw [htop, if_pos ⟨hvt, by simp [ha]⟩, ha]
  · intro position width height t d hd
    obtain ⟨ps', hps, hl⟩ := updateTransitions_isSome R (position t).left (position t).top
      width height d.panels 0 (by omega)
    refine ⟨{ containerTop := (position t).top, containerLeft := (position t).left,
              panels := ps' }, ?_, ?_⟩
    · simp only [scrollHandler, hps]
    · simp only [hl, hd]

/-- The bounds computation and the initial call of the handler on the
documented transitions. -/
theorem resolveBounds_total_documented :
    ∃ R, resolveBounds documentedTransitions = some R ∧ R.length = 3 ∧
      (∃ b : Bounds, R[1]? = some b ∧ b.vertical = false ∧ b.top = some 300) ∧
      (∃ d', scrollHandler documentedPosition R 200 100 0
          { containerTop := 0, containerLeft := 0,
            panels := createPanels documentedTransitions 200 100 } = some d' ∧
        d'.panels.length = 3) := by
  obtain ⟨R, hR, hlen, h3, h4⟩ := resolveBounds_total documentedTransitions
  obtain ⟨b, hb, hv, ha⟩ := h3 1 ⟨some 300, false⟩ rfl
  exact ⟨R, hR, hlen, ⟨b, hb, hv, (ha 300 rfl).2 rfl⟩, h4 _ 200 100 0 _ rfl⟩

/-- The fields of the resolved region `i`, from the transitions. -/
theorem resolveBounds_fields (ts : List TransitionSpec) (i : Nat) (t : TransitionSpec)
    (h : ts[i]? = some t) :
    ∃ R b b0, resolveBounds ts = some R ∧ R.length = ts.length ∧ R[i]? = some b ∧
      (createBounds ts)[i]? = some b0 ∧
      b.vertical = t.vertical ∧
      b.top = b0.top ∧
      b.bottom = nextBottom ((createBounds ts).drop (i + 1)) ∧
      b.left = (if t.vertical = true then
                  (match t.at_ with
                   | some a => some a
                   | none => if 0 < i then some 0 else none)
                else none) ∧
      b.right = (match ts[i + 1]? with
                 | some next => if next.vertical = true then some (next.at_.getD 0) else none
                 | none => none) := by
  obtain ⟨R, hR, hlen, hB, hi⟩ := resolveBounds_getElem? ts i t h
  obtain ⟨_, _, hv, hl, _⟩ := transitionBounds_fields ((createBounds ts).take i) t
  refine ⟨R, _, _, hR, hlen, hi, hB, hv, rfl, ?_, ?_, ?_⟩
  · simp only [interpolated]
    rw [if_pos (Nat.zero_le _)]
  · simp only [interpolated]
    rw [hl, hv]
    obtain ⟨a, v⟩ := t
    cases a <;> cases v <;> simp
  · simp only [interpolated]
    cases hn : ts[i + 1]? with
    | none =>
      have hlen' : ts.length ≤ i + 1 := by
        by_contra hc
        rw [List.getElem?_eq_getElem (by omega)] at hn
        cases hn
      rw [List.getElem?_eq_none (by rw [createBounds_length]; exact hlen')]
    | some nx =>
      rw [createBounds_getElem? ts (i + 1) nx hn]
      obtain ⟨_, _, hv', hl', _⟩ := transitionBounds_fields ((createBounds ts).take (i + 1)) nx
      simp only
      rw [hv', hl']
      obtain ⟨a, v⟩ := nx
      cases a <;> cases v <;> simp [toNum]

/-- C5: for every non-empty spec list the last resolved region has an
unbounded bottom and an unbounded right. -/
theorem C5_last_region_open (ts : List TransitionSpec) (hne : ts ≠ []) :
    ∃ R b, resolveBounds ts = some R ∧ R.getLast? = some b ∧
      b.bottom = none ∧ b.right = none := by
  have hpos : 0 < ts.length := List.length_pos.mpr hne
  have hlast : ts[ts.length - 1]? = some ts[ts.length - 1] :=
    List.getElem?_eq_getElem (by omega)
  obtain ⟨R, b, b0, hR, hlen, hi, _, _, _, hbot, _, hright⟩ :=
    resolveBounds_fields ts (ts.length - 1) _ hlast
  refine ⟨R, b, hR, ?_, ?_, ?_⟩
  · rw [List.getLast?_eq_getElem?, hlen]
    exact hi
  · rw [hbot, List.drop_of_length_le (by rw [createBounds_length]; omega)]
    rfl
  · rw [hright, List.getElem?_eq_none (by omega)]

/-- C5 on the documented transitions. -/
theorem C5_last_region_open_witness :
    documentedTransitions ≠ [] ∧
    ∃ R b, resolveBounds documentedTransitions = some R ∧ R.getLast? = some b ∧
      b.bottom = none ∧ b.right = none :=
  ⟨by decide, C5_last_region_open documentedTransitions (by decide)⟩

theorem createBounds_horizontal (ts : List TransitionSpec) (j : Nat) (t : TransitionSpec)
    (hj : ts[j]? = some t) (hv : t.vertical = false) (ha : t.at_.isSome = true) :
    ∃ b, (createBounds ts)[j]? = some b ∧ b.vertical = false ∧ b.top.isSome = true := by
  refine ⟨_, createBounds_getElem? ts j t hj, ?_, ?_⟩
  · rw [(transitionBounds_fields _ _).2.2.1, hv]
  · rw [(transitionBounds_fields _ _).2.2.2.2, if_pos ⟨hv, ha⟩, ha]

/-- C6: for every index `i < n - 1` such that some spec `j > i` declares a
horizontal breakpoint (not vertical, numeric `at`), the resolved bottom of
region `i` is a concrete number, whatever lies between `i` and `j`. -/
theorem C6_bottom_closed (ts : List TransitionSpec) (i j : Nat) (t : TransitionSpec)
    (hi : i + 1 < ts.length) (hij : i < j) (hj : ts[j]? = some t)
    (hv : t.vertical = false) (ha : t.at_.isSome = true) :
    ∃ b v, regionAt (resolveBounds ts) i = some b ∧ b.bottom = some v := by
  have hti : ts[i]? = some ts[i] := List.getElem?_eq_getElem (by omega)
  obtain ⟨R, b, b0, hR, _, hRi, _, _, _, hbot, _, _⟩ := resolveBounds_fields ts i _ hti
  obtain ⟨bj, hbj, hbv, hbt⟩ := createBounds_horizontal ts j t hj hv ha
  have hmem : bj ∈ (createBounds ts).drop (i + 1) := by
    rw [List.mem_iff_getElem?]
    refine ⟨j - (i + 1), ?_⟩
    rw [List.getElem?_drop, ← hbj]
    congr 1
    omega
  have hsome : nextBottom ((createBounds ts).drop (i + 1)) ≠ none := by
    intro hnone
    exact (nextBottom_eq_none_iff _).mp hnone bj hmem ⟨hbv, hbt⟩
  obtain ⟨v, hv'⟩ := Option.ne_none_iff_exists'.mp hsome
  refine ⟨b, v, ?_, ?_⟩
  · rw [hR]
    exact hRi
  · rw [hbot]
    exact hv'

/-- C6 across a vertical spec and a spec without breakpoint. -/
theorem C6_bottom_closed_witness :
    ∃ b v, regionAt (resolveBounds
        [⟨none, false⟩, ⟨none, true⟩, ⟨none, false⟩, ⟨some 500, false⟩]) 0 = some b ∧
      b.bottom = some v :=
  C6_bottom_closed [⟨none, false⟩, ⟨none, true⟩, ⟨none, false⟩, ⟨some 500, false⟩] 0 3
    ⟨some 500, false⟩ (by decide) (by decide) rfl rfl rfl

/-- The region resolved for index `k` keeps the `top` and the axis flag
the first loop gave it. -/
theorem resolveBounds_top (ts : List TransitionSpec) (R : List Bounds)
    (hR : resolveBounds ts = some R) (k : Nat) (bk : Bounds) :
    R[k]? = some bk ↔
      ∃ b0, (createBounds ts)[k]? = some b0 ∧ bk = interpolated (createBounds ts) 0 k b0 := by
  obtain ⟨R', hR', _, hRi⟩ := resolveBounds_spec ts
  rw [hR] at hR'
  cases hR'
  rw [hRi k]
  cases (createBounds ts)[k]? with
  | none => simp
  | some b0 =>
    simp only [Option.map_some', Option.some.injEq, exists_eq_left']
    exact eq_comm

/-- C7: on the transitions documented in the source (lines 7-11) the
code resolves region 1 of 3 with an unbounded bottom, so "every region at
an index `i < n - 1` has a concrete bottom" fails there, although the
comment at line 170 says the block ensures that only the last transition
extends to the bottom of the screen. -/
theorem C7_counterexample :
    plungeBounds 200 100 documentedOptions =
      some [{ top := none, bottom := some 300, left := none, right := none, vertical := false },
            { top := some 300, bottom := none, left := none, right := some 700,
              vertical := false },
            { top := some 300, bottom := none, left := some 700, right := none,
              vertical := true }] ∧
    regionAt (resolveBounds documentedTransitions) 1 =
      some { top := some 300, bottom := none, left := none, right := some 700,
             vertical := false } ∧
    ¬ (∀ i, i + 1 < documentedTransitions.length →
        ∃ b v, regionAt (resolveBounds documentedTransitions) i = some b ∧ b.bottom = some v) := by
  have hreg : regionAt (resolveBounds documentedTransitions) 1 =
      some ⟨some 300, none, none, some 700, false⟩ := by decide
  refine ⟨by decide, hreg, ?_⟩
  intro h
  obtain ⟨b, v, hb, hv⟩ := h 1 (by decide)
  rw [hreg] at hb
  cases hb
  cases hv

/-- What the backward loop computes: for every index `i < n - 1` the
resolved bottom of region `i` is a concrete number exactly when some later
region `k > i` is not vertical and has a concrete resolved top. -/
theorem bottom_concrete_iff (ts : List TransitionSpec) (i : Nat) (hi : i + 1 < ts.length) :
    ∃ R b, resolveBounds ts = some R ∧ R[i]? = some b ∧
      (b.bottom ≠ none ↔
        ∃ (k : Nat) (bk : Bounds), i < k ∧ R[k]? = some bk ∧
          bk.vertical = false ∧ bk.top ≠ none) := by
  have hti : ts[i]? = some ts[i] := List.getElem?_eq_getElem (by omega)
  obtain ⟨R, b, b0, hR, _, hRi, _, _, _, hbot, _, _⟩ := resolveBounds_fields ts i _ hti
  refine ⟨R, b, hR, hRi, ?_⟩
  rw [hbot, Ne, nextBottom_eq_none_iff]
  constructor
  · intro hex
    simp only [not_forall] at hex
    obtain ⟨bj, hmem, hprop⟩ := hex
    have hprop' := not_not.mp hprop
    obtain ⟨n, hn⟩ := List.mem_iff_getElem?.mp hmem
    rw [List.getElem?_drop] at hn
    refine ⟨i + 1 + n, interpolated (createBounds ts) 0 (i + 1 + n) bj, by omega, ?_, ?_, ?_⟩
    · exact (resolveBounds_top ts R hR _ _).mpr ⟨bj, hn, rfl⟩
    · exact hprop'.1
    · intro hnone
      have h2 := hprop'.2
      simp only [interpolated] at hnone
      rw [hnone] at h2
      cases h2
  · rintro ⟨k, bk, hik, hk, hv, ht⟩ hall
    obtain ⟨bk0, hbk0, hbk⟩ := (resolveBounds_top ts R hR k bk).mp hk
    have hmem : bk0 ∈ (createBounds ts).drop (i + 1) := by
      rw [List.mem_iff_getElem?]
      refine ⟨k - (i + 1), ?_⟩
      rw [List.getElem?_drop, ← hbk0]
      congr 1
      omega
    apply hall bk0 hmem
    subst hbk
    refine ⟨hv, ?_⟩
    simp only [interpolated] at ht
    exact Option.isSome_iff_ne_none.mpr ht

/-- The same at region 1 of the documented transitions. -/
theorem bottom_concrete_iff_documented :
    ∃ R b, resolveBounds documentedTransitions = some R ∧ R[1]? = some b ∧
      (b.bottom ≠ none ↔
        ∃ (k : Nat) (bk : Bounds), 1 < k ∧ R[k]? = some bk ∧
          bk.vertical = false ∧ bk.top ≠ none) :=
  bottom_concrete_iff documentedTransitions 1 (by decide)

/-- C8: the transitions `[{}, {at: 300}, {at: 700, vertical: true}]` do not
resolve to the three regions of the claim, whose third region has an
unbounded top. -/
theorem C8_counterexample :
    resolveBounds documentedTransitions ≠
      some [{ top := none, bottom := some 300, left := none, right := none, vertical := false },
            { top := some 300, bottom := none, left := none, right := some 700,
              vertical := false },
            { top := none, bottom := none, left := some 700, right := none,
              vertical := true }] := by
  decide

/-- C8 (amended): the transitions `[{}, {at: 300}, {at: 700, vertical:
true}]` resolve to exactly three regions: region 0 with only `bottom =
300`, region 1 with `top = 300` and `right = 700`, and region 2 with
`top = 300` (inherited from region 1) and `left = 700`. -/
theorem C8_documented_regions :
    resolveBounds documentedTransitions =
      some [{ top := none, bottom := some 300, left := none, right := none, vertical := false },
            { top := some 300, bottom := none, left := none, right := some 700,
              vertical := false },
            { top := some 300, bottom := none, left := some 700, right := none,
              vertical := true }] := by
  decide

/-- C9: for every index `i < n - 1`: when spec `i + 1` is vertical, the
resolved `right` of region `i` and `left` of region `i + 1` are the same
concrete number, the `at` of spec `i + 1` when it is numeric and `0`
otherwise; when spec `i + 1` is not vertical, the resolved `right` of
region `i` is unbounded. -/
theorem C9_shared_vertical_boundary (ts : List TransitionSpec) (i : Nat) (t : TransitionSpec)
    (h : ts[i + 1]? = some t) :
    ∃ R b b', resolveBounds ts = some R ∧ R[i]? = some b ∧ R[i + 1]? = some b' ∧
      (t.vertical = true →
        b.right = some (t.at_.getD 0) ∧ b'.left = some (t.at_.getD 0)) ∧
      (t.vertical = false → b.right = none) := by
  have hlt : i + 1 < ts.length := (List.getElem?_eq_some.mp h).1
  have hti : ts[i]? = some ts[i] := List.getElem?_eq_getElem (by omega)
  obtain ⟨R, b, _, hR, _, hRi, _, _, _, _, _, hright⟩ := resolveBounds_fields ts i _ hti
  obtain ⟨R', b', _, hR', _, hRi', _, _, _, _, hleft, _⟩ := resolveBounds_fields ts (i + 1) t h
  rw [hR] at hR'
  cases hR'
  rw [h] at hright
  simp only at hright
  refine ⟨R, b, b', hR, hRi, hRi', ?_, ?_⟩
  · intro hv
    rw [hright, hleft, if_pos hv, if_pos hv]
    cases t.at_ <;> simp
  · intro hv
    rw [hright, if_neg (by simp [hv])]

/-- C9 at a vertical spec without breakpoint: the shared boundary is 0. -/
theorem C9_shared_vertical_boundary_witness :
    ∃ R b b', resolveBounds [⟨none, false⟩, ⟨none, true⟩] = some R ∧
      R[0]? = some b ∧ R[1]? = some b' ∧ b.right = some 0 ∧ b'.left = some 0 := by
  obtain ⟨R, b, b', hR, hb, hb', hv, _⟩ :=
    C9_shared_vertical_boundary [⟨none, false⟩, ⟨none, true⟩] 0 ⟨none, true⟩ rfl
  exact ⟨R, b, b', hR, hb, hb', (hv rfl).1, (hv rfl).2⟩

/-- The first loop seeds the `top` of entry `k + 1` from entry `k`, unless
transition `k + 1` declares a horizontal breakpoint. -/
theorem createBounds_top_succ (ts : List TransitionSpec) (k : Nat) (t : TransitionSpec)
    (h : ts[k + 1]? = some t) :
    ∃ b0 b1, (createBounds ts)[k]? = some b0 ∧ (createBounds ts)[k + 1]? = some b1 ∧
      b1.top = (if t.vertical = false ∧ t.at_.isSome = true then t.at_ else b0.top) := by
  have hlt : k + 1 < ts.length := (List.getElem?_eq_some.mp h).1
  have hk : k < (createBounds ts).length := by rw [createBounds_length]; omega
  refine ⟨(createBounds ts)[k], _, List.getElem?_eq_getElem hk,
    createBounds_getElem? ts (k + 1) t h, ?_⟩
  rw [(transitionBounds_fields _ _).2.2.2.2, List.getLast?_take]
  simp [List.getElem?_eq_getElem hk]

/-- The first loop gives entry `0` a `top` only from its own horizontal
breakpoint. -/
theorem createBounds_top_zero (ts : List TransitionSpec) (t : TransitionSpec)
    (h : ts[0]? = some t) :
    ∃ b0, (createBounds ts)[0]? = some b0 ∧
      b0.top = (if t.vertical = false ∧ t.at_.isSome = true then t.at_ else none) := by
  refine ⟨_, createBounds_getElem? ts 0 t h, ?_⟩
  rw [(transitionBounds_fields _ _).2.2.2.2]
  rfl

/-- C10: a spec without a numeric breakpoint is not always open on its
axis: in `[{}, {vertical: true}]` region 1 has `left = 0`, and in
`[{at: 100}, {}]` region 1 has `top = 100`. -/
theorem C10_counterexample :
    ¬ (∀ (ts : List TransitionSpec) (i : Nat) (t : TransitionSpec),
        ts[i]? = some t → t.at_ = none →
        ∃ b, regionAt (resolveBounds ts) i = some b ∧
          (t.vertical = true → b.left = none) ∧ (t.vertical = false → b.top = none)) ∧
    regionAt (resolveBounds [⟨none, false⟩, ⟨none, true⟩]) 1 =
      some ⟨none, none, some 0, none, true⟩ ∧
    regionAt (resolveBounds [⟨some 100, false⟩, ⟨none, false⟩]) 1 =
      some ⟨some 100, none, none, none, false⟩ := by
  refine ⟨?_, by decide, by decide⟩
  intro h
  obtain ⟨b, hb, hl, _⟩ := h [⟨none, false⟩, ⟨none, true⟩] 1 ⟨none, true⟩ rfl rfl
  have hreg : regionAt (resolveBounds [⟨none, false⟩, ⟨none, true⟩]) 1 =
      some ⟨none, none, some 0, none, true⟩ := by decide
  rw [hreg] at hb
  cases hb
  have := hl rfl
  cases this

/-- C10 (amended): for every index `i` whose spec has no numeric
breakpoint: if the spec is vertical, the resolved `left` of region `i` is
unbounded when `i = 0` and is `0` when `i > 0`; if the spec is not
vertical, the resolved `top` of region `i` is unbounded when `i = 0` and is
the resolved `top` of region `i - 1` when `i > 0`. -/
theorem C10_no_breakpoint (ts : List TransitionSpec) (i : Nat) (t : TransitionSpec)
    (h : ts[i]? = some t) (ha : t.at_ = none) :
    ∃ R b, resolveBounds ts = some R ∧ R[i]? = some b ∧
      (t.vertical = true → b.left = (if i = 0 then none else some 0)) ∧
      (t.vertical = false →
        (i = 0 → b.top = none) ∧
        (∀ (k : Nat) (pb : Bounds), i = k + 1 → R[k]? = some pb → b.top = pb.top)) := by
  obtain ⟨R, b, b0, hR, _, hRi, hB, _, htop, _, hleft, _⟩ := resolveBounds_fields ts i t h
  refine ⟨R, b, hR, hRi, ?_, ?_⟩
  · intro hv
    rw [hleft, if_pos hv, ha]
    by_cases hi : i = 0
    · simp [hi]
    · simp [hi, Nat.pos_of_ne_zero hi]
  · intro hv
    constructor
    · intro hi
      subst hi
      obtain ⟨b0', hb0', ht0⟩ := createBounds_top_zero ts t h
      rw [hB] at hb0'
      cases hb0'
      rw [htop, ht0, if_neg (by simp [ha])]
    · intro k pb hik hpb
      subst hik
      obtain ⟨p0, b1, hp0, hb1, ht1⟩ := createBounds_top_succ ts k t h
      rw [hB] at hb1
      cases hb1
      obtain ⟨p0', hp0', hpb'⟩ := (resolveBounds_top ts R hR k pb).mp hpb
      rw [hp0] at hp0'
      cases hp0'
      rw [htop, ht1, if_neg (by simp [ha]), hpb']
      rfl

/-- C10 (amended) at a vertical spec without breakpoint at index 2. -/
theorem C10_no_breakpoint_witness :
    ∃ R b, resolveBounds [⟨some 100, false⟩, ⟨none, false⟩, ⟨none, true⟩] = some R ∧
      R[2]? = some b ∧ b.left = some 0 := by
  obtain ⟨R, b, hR, hb, hl, _⟩ :=
    C10_no_breakpoint [⟨some 100, false⟩, ⟨none, false⟩, ⟨none, true⟩] 2 ⟨none, true⟩ rfl rfl
  exact ⟨R, b, hR, hb, hl rfl⟩

/-! ## The scroll handler: crop window -/

/-- C11: for a visible region with a concrete `top` whose bottom edge is
not clipped (`bottom` unbounded or `y + height <= bottom`): when `y < top`,
`frameHeight = height + y - top`; when `y = top`, the frame is unclipped:
`frameHeight = height`, `frameTop = 0`, `contentOffsetTop = 0`. -/
theorem C11_crop_conservation (b : Bounds) (x y width height : Int) (p : PanelState)
    (tp : Int) (hvis : isVisible b x y width height = true) (htop : b.top = some tp)
    (hbot : b.bottom = none ∨ ∃ bt, b.bottom = some bt ∧ y + height ≤ bt) :
    (y < tp → (updateTransition b x y width height p).frameHeight = height + y - tp) ∧
    (y = tp →
      (updateTransition b x y width height p).frameHeight = height ∧
      (updateTransition b x y width height p).frameTop = 0 ∧
      (updateTransition b x y width height p).contentOffsetTop = 0) := by
  obtain ⟨hH, hT, hO⟩ := updateTransition_vertical b x y width height p hvis
  have eT := clip_flag_iff b.top (fun n => y < n)
  have eB := clip_flag_iff b.bottom (fun n => y + height > n)
  have hnb : ¬ (b.bottom.isSome && decide (y + height > toNum b.bottom)) = true := by
    intro hc
    obtain ⟨bt, hbt, hgt⟩ := eB.mp hc
    rcases hbot with hn | ⟨bt', hbt', hle⟩
    · rw [hn] at hbt
      cases hbt
    · rw [hbt'] at hbt
      cases hbt
      omega
  constructor
  · intro hlt
    rw [hH, if_pos (eT.mpr ⟨tp, htop, hlt⟩), if_neg hnb, htop]
    rfl
  · intro heq
    have hnt : ¬ (b.top.isSome && decide (y < toNum b.top)) = true := by
      intro hc
      obtain ⟨tp', htp', hlt⟩ := eT.mp hc
      rw [htop] at htp'
      cases htp'
      omega
    rw [hH, hT, hO, if_neg hnt, if_neg hnt, if_neg hnt, if_neg hnb]
    exact ⟨rfl, rfl, rfl⟩

/-- C11 at a region with `top = 300` reached exactly (`y = 300`): the frame
keeps the full height 100. -/
theorem C11_crop_conservation_witness :
    (updateTransition ⟨some 300, none, none, none, false⟩ 0 300 200 100
        (newPanel 200 100)).frameHeight = 100 ∧
    (updateTransition ⟨some 300, none, none, none, false⟩ 0 250 200 100
        (newPanel 200 100)).frameHeight = 100 + 250 - 300 :=
  ⟨((C11_crop_conservation ⟨some 300, none, none, none, false⟩ 0 300 200 100
      (newPanel 200 100) 300 (by decide) rfl (Or.inl rfl)).2 rfl).1,
   (C11_crop_conservation ⟨some 300, none, none, none, false⟩ 0 250 200 100
      (newPanel 200 100) 300 (by decide) rfl (Or.inl rfl)).1 (by decide)⟩

/-- C16: for every visible panel the slider offset is the opposite of the
frame offset on both axes, `contentOffsetTop = -frameTop` and
`contentOffsetLeft = -frameLeft`, and both frame offsets are non-negative. -/
theorem C16_counter_shift (b : Bounds) (x y width height : Int) (p : PanelState)
    (hvis : isVisible b x y width height = true) :
    (updateTransition b x y width height p).contentOffsetTop =
      -(updateTransition b x y width height p).frameTop ∧
    (updateTransition b x y width height p).contentOffsetLeft =
      -(updateTransition b x y width height p).frameLeft ∧
    0 ≤ (updateTransition b x y width height p).frameTop ∧
    0 ≤ (updateTransition b x y width height p).frameLeft := by
  obtain ⟨_, hT, hO⟩ := updateTransition_vertical b x y width height p hvis
  obtain ⟨_, hL, hOl⟩ := updateTransition_horizontal b x y width height p hvis
  have eT := clip_flag_iff b.top (fun n => y < n)
  have eL := clip_flag_iff b.left (fun n => x < n)
  rw [hT, hO, hL, hOl]
  refine ⟨?_, ?_, ?_, ?_⟩
  · split <;> omega
  · split <;> omega
  · split
    · next hc =>
      obtain ⟨tp, htp, hlt⟩ := eT.mp hc
      rw [htp]
      simp only [toNum]
      omega
    · exact le_refl _
  · split
    · next hc =>
      obtain ⟨l, hl, hlt⟩ := eL.mp hc
      rw [hl]
      simp only [toNum]
      omega
    · exact le_refl _

/-- C16 at a region clipped at its top and its left edge. -/
theorem C16_counter_shift_witness :
    isVisible ⟨some 300, none, some 50, none, false⟩ 40 280 100 100 = true ∧
    (updateTransition ⟨some 300, none, some 50, none, false⟩ 40 280 100 100
        (newPanel 100 100)).contentOffsetTop =
      -(updateTransition ⟨some 300, none, some 50, none, false⟩ 40 280 100 100
        (newPanel 100 100)).frameTop ∧
    (updateTransition ⟨some 300, none, some 50, none, false⟩ 40 280 100 100
        (newPanel 100 100)).frameTop = 20 :=
  ⟨by decide,
   (C16_counter_shift ⟨some 300, none, some 50, none, false⟩ 40 280 100 100
      (newPanel 100 100) (by decide)).1,
   by decide⟩

theorem crop_window_axis (lo hi : Option Int) (y height : Int)
    (h1 : lo = none ∨ ∃ t, lo = some t ∧ y + height > t)
    (h2 : hi = none ∨ ∃ t, hi = some t ∧ y < t) :
    (∀ t, lo = some t →
      y + (if (lo.isSome && decide (y < toNum lo)) = true then toNum lo - y else 0) =
        max y t) ∧
    (lo = none →
      y + (if (lo.isSome && decide (y < toNum lo)) = true then toNum lo - y else 0) = y) ∧
    (∀ t, hi = some t →
      y + (if (lo.isSome && decide (y < toNum lo)) = true then toNum lo - y else 0) +
        (if (lo.isSome && decide (y < toNum lo)) = true then
          (if (hi.isSome && decide (y + height > toNum hi)) = true then
            toNum hi - toNum lo else height + y - toNum lo)
         else
          (if (hi.isSome && decide (y + height > toNum hi)) = true then
            toNum hi - y else height)) = min (y + height) t) ∧
    (hi = none →
      y + (if (lo.isSome && decide (y < toNum lo)) = true then toNum lo - y else 0) +
        (if (lo.isSome && decide (y < toNum lo)) = true then
          (if (hi.isSome && decide (y + height > toNum hi)) = true then
            toNum hi - toNum lo else height + y - toNum lo)
         else
          (if (hi.isSome && decide (y + height > toNum hi)) = true then
            toNum hi - y else height)) = y + height) ∧
    (if (lo.isSome && decide (y < toNum lo)) = true then
        (if (hi.isSome && decide (y + height > toNum hi)) = true then
          toNum hi - toNum lo else height + y - toNum lo)
      else
        (if (hi.isSome && decide (y + height > toNum hi)) = true then
          toNum hi - y else height)) ≤ height := by
  have ha : ∀ a, lo = some a → y + height > a := by
    intro a hlo
    rcases h1 with h | ⟨t, ht, hgt⟩
    · rw [hlo] at h
      cases h
    · rw [hlo] at ht
      cases ht
      exact hgt
  have hb : ∀ b, hi = some b → y < b := by
    intro b hhi
    rcases h2 with h | ⟨t, ht, hlt⟩
    · rw [hhi] at h
      cases h
    · rw [hhi] at ht
      cases ht
      exact hlt
  cases lo with
  | none =>
    cases hi with
    | none => simp [toNum]
    | some b =>
      have hb' := hb b rfl
      refine ⟨?_, ?_, ?_, ?_, ?_⟩ <;> intros <;>
        simp only [toNum, Option.isSome_none, Option.isSome_some, Bool.false_and,
          Bool.true_and, decide_eq_true_eq, if_false, Bool.false_eq_true] <;>
        simp_all <;> split <;> omega
  | some a =>
    have ha' := ha a rfl
    cases hi with
    | none =>
      refine ⟨?_, ?_, ?_, ?_, ?_⟩ <;> intros <;>
        simp only [toNum, Option.isSome_none, Option.isSome_some, Bool.false_and,
          Bool.true_and, decide_eq_true_eq, if_false, Bool.false_eq_true] <;>
        simp_all <;> split <;> omega
    | some b =>
      have hb' := hb b rfl
      refine ⟨?_, ?_, ?_, ?_, ?_⟩ <;> intros <;>
        simp only [toNum, Option.isSome_none, Option.isSome_some, Bool.false_and,
          Bool.true_and, decide_eq_true_eq, if_false, Bool.false_eq_true] <;>
        simp_all <;> split <;> (try split) <;> omega

/-- C19: for every visible region the crop window is the intersection of
the container rectangle with the region: `y + frameTop = max y top` (`= y`
when `top` is unbounded), `y + frameTop + frameHeight = min (y + height)
bottom` (`= y + height` when `bottom` is unbounded), likewise `x +
frameLeft = max x left` and `x + frameLeft + frameWidth = min (x + width)
right`; hence `frameHeight <= height` and `frameWidth <= width`. -/
theorem C19_crop_window_is_intersection (b : Bounds) (x y width height : Int)
    (p : PanelState) (hvis : isVisible b x y width height = true) :
    (∀ t, b.top = some t → y + (updateTransition b x y width height p).frameTop = max y t) ∧
    (b.top = none → y + (updateTransition b x y width height p).frameTop = y) ∧
    (∀ t, b.bottom = some t →
      y + (updateTransition b x y width height p).frameTop +
        (updateTransition b x y width height p).frameHeight = min (y + height) t) ∧
    (b.bottom = none →
      y + (updateTransition b x y width height p).frameTop +
        (updateTransition b x y width height p).frameHeight = y + height) ∧
    (∀ l, b.left = some l → x + (updateTransition b x y width height p).frameLeft = max x l) ∧
    (b.left = none → x + (updateTransition b x y width height p).frameLeft = x) ∧
    (∀ r, b.right = some r →
      x + (updateTransition b x y width height p).frameLeft +
        (updateTransition b x y width height p).frameWidth = min (x + width) r) ∧
    (b.right = none →
      x + (updateTransition b x y width height p).frameLeft +
        (updateTransition b x y width height p).frameWidth = x + width) ∧
    (updateTransition b x y width height p).frameHeight ≤ height ∧
    (updateTransition b x y width height p).frameWidth ≤ width := by
  obtain ⟨hH, hT, _⟩ := updateTransition_vertical b x y width height p hvis
  obtain ⟨hW, hL, _⟩ := updateTransition_horizontal b x y width height p hvis
  obtain ⟨v1, v2, v3, v4⟩ := (isVisible_iff b x y width height).mp hvis
  obtain ⟨a1, a2, a3, a4, a5⟩ := crop_window_axis b.top b.bottom y height v1 v2
  obtain ⟨c1, c2, c3, c4, c5⟩ := crop_window_axis b.left b.right x width v3 v4
  rw [hH, hT, hW, hL]
  exact ⟨a1, a2, a3, a4, c1, c2, c3, c4, a5, c5⟩

/-- C19 at a region clipped at both its top and its bottom edge. -/
theorem C19_crop_window_is_intersection_witness :
    isVisible ⟨some 300, some 350, none, none, false⟩ 0 280 100 100 = true ∧
    280 + (updateTransition ⟨some 300, some 350, none, none, false⟩ 0 280 100 100
        (newPanel 100 100)).frameTop = max 280 300 ∧
    (updateTransition ⟨some 300, some 350, none, none, false⟩ 0 280 100 100
        (newPanel 100 100)).frameHeight ≤ 100 :=
  ⟨by decide,
   (C19_crop_window_is_intersection ⟨some 300, some 350, none, none, false⟩ 0 280 100 100
      (newPanel 100 100) (by decide)).1 300 rfl,
   (C19_crop_window_is_intersection ⟨some 300, some 350, none, none, false⟩ 0 280 100 100
      (newPanel 100 100) (by decide)).2.2.2.2.2.2.2.2.1⟩

/-! ## The scroll handler: dependence on the display state -/

theorem updateTransition_hidden (b : Bounds) (x y width height : Int) (p : PanelState)
    (h : isVisible b x y width height = false) :
    updateTransition b x y width height p = { p with shown := false } := by
  unfold updateTransition
  rw [h]
  rfl

theorem updateTransition_uncropped (b : Bounds) (x y width height : Int) (p : PanelState)
    (hv : isVisible b x y width height = true)
    (h1 : (b.top.isSome && decide (y < toNum b.top)) = false)
    (h2 : (b.bottom.isSome && decide (y + height > toNum b.bottom)) = false)
    (h3 : (b.left.isSome && decide (x < toNum b.left)) = false)
    (h4 : (b.right.isSome && decide (x + width > toNum b.right)) = false) :
    updateTransition b x y width height p =
      { shown := true, frameTop := 0, frameLeft := 0, frameWidth := width,
        frameHeight := height, contentOffsetTop := 0, contentOffsetLeft := 0 } := by
  unfold updateTransition
  rw [hv, h1, h2, h3, h4]
  rfl

theorem updateTransition_visible_eq (b : Bounds) (x y width height : Int) (p q : PanelState)
    (hv : isVisible b x y width height = true) :
    updateTransition b x y width height p = updateTransition b x y width height q := by
  unfold updateTransition
  rw [hv]
  simp only [if_true]
  cases (b.top.isSome && decide (y < toNum b.top)) <;>
  cases (b.bottom.isSome && decide (y + height > toNum b.bottom)) <;>
  cases (b.left.isSome && decide (x < toNum b.left)) <;>
  cases (b.right.isSome && decide (x + width > toNum b.right)) <;>
  rfl

theorem updateTransition_idem (b : Bounds) (x y width height : Int) (p : PanelState) :
    updateTransition b x y width height (updateTransition b x y width height p) =
      updateTransition b x y width height p := by
  cases hv : isVisible b x y width height with
  | false =>
    rw [updateTransition_hidden b x y width height p hv,
      updateTransition_hidden b x y width height _ hv]
  | true => exact updateTransition_visible_eq b x y width height _ p hv

theorem updateTransitions_idem (bounds : List Bounds) (x y width height : Int) :
    ∀ (ps : List PanelState) (i : Nat) (ps' : List PanelState),
      updateTransitions bounds x y width height i ps = some ps' →
      updateTransitions bounds x y width height i ps' = some ps' := by
  intro ps
  induction ps with
  | nil =>
    intro i ps' h
    simp only [updateTransitions, Option.some.injEq] at h
    subst h
    rfl
  | cons p ps ih =>
    intro i ps' h
    simp only [updateTransitions] at h
    cases hb : bounds[i]? with
    | none => simp [hb] at h
    | some b =>
      cases hr : updateTransitions bounds x y width height (i + 1) ps with
      | none => simp [hb, hr] at h
      | some rest =>
        simp only [hb, hr, Option.some.injEq] at h
        subst h
        simp only [updateTransitions, hb, ih (i + 1) rest hr, updateTransition_idem]

theorem updateTransitions_getElem? (bounds : List Bounds) (x y width height : Int) :
    ∀ (ps : List PanelState) (i : Nat) (ps' : List PanelState),
      updateTransitions bounds x y width height i ps = some ps' →
      ps'.length = ps.length ∧
      ∀ (k : Nat) (p : PanelState), ps[k]? = some p →
        ∃ b, bounds[i + k]? = some b ∧ ps'[k]? = some (updateTransition b x y width height p) := by
  intro ps
  induction ps with
  | nil =>
    intro i ps' h
    simp only [updateTransitions, Option.some.injEq] at h
    subst h
    exact ⟨rfl, fun k p hk => by simp at hk⟩
  | cons p0 ps ih =>
    intro i ps' h
    simp only [updateTransitions] at h
    cases hb : bounds[i]? with
    | none => simp [hb] at h
    | some b =>
      cases hr : updateTransitions bounds x y width height (i + 1) ps with
      | none => simp [hb, hr] at h
      | some rest =>
        simp only [hb, hr, Option.some.injEq] at h
        subst h
        obtain ⟨hl, hk⟩ := ih (i + 1) rest hr
        refine ⟨by simp [hl], ?_⟩
        intro k p hp
        cases k with
        | zero =>
          simp only [List.getElem?_cons_zero, Option.some.injEq] at hp
          subst hp
          exact ⟨b, hb, by simp⟩
        | succ k =>
          simp only [List.getElem?_cons_succ] at hp
          obtain ⟨b', hb', hp'⟩ := hk k p hp
          refine ⟨b', ?_, ?_⟩
          · rw [← hb']
            congr 1
            omega
          · simpa using hp'

/-- C14: the handler is idempotent and keeps no state: run again with the
same `t` on the display it left, it leaves that display unchanged (and
fails exactly when the first run fails); from any two starting displays
with the same number of panels it sets the same container position, the
same shown flag for every panel and the same six values for every shown
panel; and it returns whenever every panel has a region. -/
theorem C14_projection_idempotent (position : Int → Position) (bounds : List Bounds)
    (width height t : Int) (d : Display) :
    (scrollHandler position bounds width height t d).bind
        (scrollHandler position bounds width height t) =
      scrollHandler position bounds width height t d ∧
    (∀ d1, scrollHandler position bounds width height t d = some d1 →
      scrollHandler position bounds width height t d1 = some d1 ∧
      d1.containerTop = (position t).top ∧ d1.containerLeft = (position t).left) ∧
    (∀ d' d1, d'.panels.length = d.panels.length →
      scrollHandler position bounds width height t d = some d1 →
      ∃ d1', scrollHandler position bounds width height t d' = some d1' ∧
        d1'.containerTop = d1.containerTop ∧ d1'.containerLeft = d1.containerLeft ∧
        d1'.panels.length = d1.panels.length ∧
        ∀ (k : Nat) (p p' : PanelState), d1.panels[k]? = some p → d1'.panels[k]? = some p' →
          p'.shown = p.shown ∧ (p.shown = true → p' = p)) ∧
    (d.panels.length ≤ bounds.length →
      ∃ d1, scrollHandler position bounds width height t d = some d1) := by
  have hidem : ∀ d1, scrollHandler position bounds width height t d = some d1 →
      scrollHandler position bounds width height t d1 = some d1 := by
    intro d1 h
    simp only [scrollHandler] at h
    cases hu : updateTransitions bounds (position t).left (position t).top width height 0
        d.panels with
    | none => simp [hu] at h
    | some ps =>
      simp only [hu, Option.some.injEq] at h
      subst h
      simp only [scrollHandler, updateTransitions_idem bounds _ _ _ _ d.panels 0 ps hu]
  refine ⟨?_, ?_, ?_, ?_⟩
  · cases h : scrollHandler position bounds width height t d with
    | none => rfl
    | some d1 => exact hidem d1 h
  · intro d1 h
    refine ⟨hidem d1 h, ?_, ?_⟩
    · simp only [scrollHandler] at h
      cases hu : updateTransitions bounds (position t).left (position t).top width height 0
          d.panels with
      | none => simp [hu] at h
      | some ps =>
        simp only [hu, Option.some.injEq] at h
        subst h
        rfl
    · simp only [scrollHandler] at h
      cases hu : updateTransitions bounds (position t).left (position t).top width height 0
          d.panels with
      | none => simp [hu] at h
      | some ps =>
        simp only [hu, Option.some.injEq] at h
        subst h
        rfl
  · intro d' d1 hlen h
    simp only [scrollHandler] at h
    cases hu : updateTransitions bounds (position t).left (position t).top width height 0
        d.panels with
    | none => simp [hu] at h
    | some ps =>
      simp only [hu, Option.some.injEq] at h
      subst h
      obtain ⟨hl, hk⟩ := updateTransitions_getElem? bounds _ _ _ _ d.panels 0 ps hu
      have hle : 0 + d'.panels.length ≤ bounds.length := by
        by_contra hc
        have hpos : d.panels.length - 1 < d.panels.length := by omega
        obtain ⟨b, hb, _⟩ := hk (d.panels.length - 1) _ (List.getElem?_eq_getElem hpos)
        have := (List.getElem?_eq_some.mp hb).1
        omega
      obtain ⟨ps', hu', hl'⟩ := updateTransitions_isSome bounds (position t).left
        (position t).top width height d'.panels 0 hle
      obtain ⟨_, hk'⟩ := updateTransitions_getElem? bounds _ _ _ _ d'.panels 0 ps' hu'
      refine ⟨{ containerTop := (position t).top, containerLeft := (position t).left,
                panels := ps' }, ?_, rfl, rfl, ?_, ?_⟩
      · simp only [scrollHandler, hu']
      · simp only [hl', hl, hlen]
      · intro k p p' hp hp'
        simp only at hp hp'
        have hk1 : k < d.panels.length := by
          rw [← hl]
          exact (List.getElem?_eq_some.mp hp).1
        have hk2 : k < d'.panels.length := by omega
        obtain ⟨b, hb, hq⟩ := hk k _ (List.getElem?_eq_getElem hk1)
        obtain ⟨b', hb', hq'⟩ := hk' k _ (List.getElem?_eq_getElem hk2)
        rw [hb] at hb'
        cases hb'
        rw [hp] at hq
        rw [hp'] at hq'
        cases hq
        cases hq'
        constructor
        · rw [updateTransition_shown, updateTransition_shown]
        · intro hs
          rw [updateTransition_shown] at hs
          exact updateTransition_visible_eq b _ _ _ _ _ _ hs
  · intro hle
    obtain ⟨ps', hu', _⟩ := updateTransitions_isSome bounds (position t).left
      (position t).top width height d.panels 0 (by omega)
    exact ⟨{ containerTop := (position t).top, containerLeft := (position t).left,
             panels := ps' }, by simp only [scrollHandler, hu']⟩

/-- C14 on the regions of the documented transitions, from the freshly
created panels and from a display left by an earlier scroll position. -/
theorem C14_projection_idempotent_witness :
    ∃ d1, scrollHandler documentedPosition
        [⟨none, some 300, none, none, false⟩, ⟨some 300, none, none, some 700, false⟩,
         ⟨some 300, none, some 700, none, true⟩] 200 100 120
        ⟨0, 0, createPanels documentedTransitions 200 100⟩ = some d1 ∧
      scrollHandler documentedPosition
        [⟨none, some 300, none, none, false⟩, ⟨some 300, none, none, some 700, false⟩,
         ⟨some 300, none, some 700, none, true⟩] 200 100 120 d1 = some d1 := by
  have h := C14_projection_idempotent documentedPosition
    [⟨none, some 300, none, none, false⟩, ⟨some 300, none, none, some 700, false⟩,
     ⟨some 300, none, some 700, none, true⟩] 200 100 120
    ⟨0, 0, createPanels documentedTransitions 200 100⟩
  obtain ⟨d1, hd1⟩ := h.2.2.2 (by decide)
  exact ⟨d1, hd1, (h.2.1 d1 hd1).1⟩

/-! ## The documented options, end to end -/

theorem resolveBounds_documented :
    resolveBounds documentedTransitions =
      some [⟨none, some 300, none, none, false⟩, ⟨some 300, none, none, some 700, false⟩,
            ⟨some 300, none, some 700, none, true⟩] := by
  decide

theorem scrollHandler_three (position : Int → Position) (b0 b1 b2 : Bounds)
    (width height t : Int) (c1 c2 : Int) (p0 p1 p2 : PanelState) :
    scrollHandler position [b0, b1, b2] width height t
        { containerTop := c1, containerLeft := c2, panels := [p0, p1, p2] } =
      some { containerTop := (position t).top, containerLeft := (position t).left,
             panels := [updateTransition b0 (position t).left (position t).top width height p0,
                        updateTransition b1 (position t).left (position t).top width height p1,
                        updateTransition b2 (position t).left (position t).top width height
                          p2] } := by
  simp [scrollHandler, updateTransitions]

theorem panels_three (d : Display) (h : d.panels.length = 3) :
    ∃ p0 p1 p2, d = { containerTop := d.containerTop, containerLeft := d.containerLeft,
                      panels := [p0, p1, p2] } := by
  obtain ⟨c1, c2, ps⟩ := d
  match ps, h with
  | [p0, p1, p2], _ => exact ⟨p0, p1, p2, rfl⟩

/-- C12: on the regions resolved from `[{}, {at: 300}, {at: 700, vertical:
true}]`, with container height 100 and a position function giving `y = 0`
(whatever `x` and the width), the handler shows panel 0 and hides
panel 1. -/
theorem C12_scenario_at_origin (position : Int → Position) (t width : Int) (d : Display)
    (hy : (position t).top = 0) (hd : d.panels.length = 3) :
    ∃ R d' q0 q1 q2, resolveBounds documentedTransitions = some R ∧
      scrollHandler position R width 100 t d = some d' ∧
      d'.panels = [q0, q1, q2] ∧ q0.shown = true ∧ q1.shown = false := by
  obtain ⟨p0, p1, p2, hd'⟩ := panels_three d hd
  rw [hd']
  refine ⟨_, _, _, _, _, resolveBounds_documented, scrollHandler_three _ _ _ _ _ _ _ _ _ _ _ _,
    rfl, ?_, ?_⟩
  · rw [updateTransition_shown, hy]
    simp [isVisible, toNum]
  · rw [updateTransition_shown, hy]
    simp [isVisible, toNum]

/-- C12 with the documented position function at `t = 0` and the freshly
created panels. -/
theorem C12_scenario_at_origin_witness :
    ∃ R d' q0 q1 q2, resolveBounds documentedTransitions = some R ∧
      scrollHandler documentedPosition R 200 100 0
        ⟨0, 0, createPanels documentedTransitions 200 100⟩ = some d' ∧
      d'.panels = [q0, q1, q2] ∧ q0.shown = true ∧ q1.shown = false :=
  C12_scenario_at_origin documentedPosition 0 200
    ⟨0, 0, createPanels documentedTransitions 200 100⟩ rfl rfl

/-- C13: with the documented options (container 200 by 100, transitions
`[{}, {at: 300}, {at: 700, vertical: true}]`, `position(t) = {top: 2t,
left: 2t}`): at `t = 0` only panel 0 is shown, uncropped (200 by 100, all
offsets 0); whenever `2t >= 300` panel 0 is hidden; whenever `300 <= 2t <=
500` only panel 1 is shown, uncropped; whenever `2t >= 700` only panel 2 is
shown, uncropped. -/
theorem C13_documented_behaviour (d : Display) (hd : d.panels.length = 3) :
    ∃ R, resolveBounds documentedTransitions = some R ∧
      (∃ q1 q2, scrollHandler documentedPosition R 200 100 0 d =
          some { containerTop := 0, containerLeft := 0,
                 panels := [{ shown := true, frameTop := 0, frameLeft := 0, frameWidth := 200,
                              frameHeight := 100, contentOffsetTop := 0,
                              contentOffsetLeft := 0 }, q1, q2] } ∧
        q1.shown = false ∧ q2.shown = false) ∧
      (∀ t : Int, 2 * t ≥ 300 →
        ∃ d' q0 q1 q2, scrollHandler documentedPosition R 200 100 t d = some d' ∧
          d'.panels = [q0, q1, q2] ∧ q0.shown = false) ∧
      (∀ t : Int, 300 ≤ 2 * t → 2 * t ≤ 500 →
        ∃ q0 q2, scrollHandler documentedPosition R 200 100 t d =
            some { containerTop := 2 * t, containerLeft := 2 * t,
                   panels := [q0, { shown := true, frameTop := 0, frameLeft := 0,
                                    frameWidth := 200, frameHeight := 100,
                                    contentOffsetTop := 0, contentOffsetLeft := 0 }, q2] } ∧
          q0.shown = false ∧ q2.shown = false) ∧
      (∀ t : Int, 2 * t ≥ 700 →
        ∃ q0 q1, scrollHandler documentedPosition R 200 100 t d =
            some { containerTop := 2 * t, containerLeft := 2 * t,
                   panels := [q0, q1, { shown := true, frameTop := 0, frameLeft := 0,
                                        frameWidth := 200, frameHeight := 100,
                                        contentOffsetTop := 0, contentOffsetLeft := 0 }] } ∧
          q0.shown = false ∧ q1.shown = false) := by
  obtain ⟨p0, p1, p2, hd'⟩ := panels_three d hd
  rw [hd']
  refine ⟨_, resolveBounds_documented, ?_, ?_, ?_, ?_⟩
  · refine ⟨updateTransition ⟨some 300, none, none, some 700, false⟩ 0 0 200 100 p1,
      updateTransition ⟨some 300, none, some 700, none, true⟩ 0 0 200 100 p2, ?_, ?_, ?_⟩
    · rw [scrollHandler_three]
      rw [← updateTransition_uncropped ⟨none, some 300, none, none, false⟩ 0 0 200 100 p0
        (by decide) (by decide) (by decide) (by decide) (by decide)]
      rfl
    · rw [updateTransition_shown]
      decide
    · rw [updateTransition_shown]
      decide
  · intro t ht
    refine ⟨_, _, _, _, scrollHandler_three _ _ _ _ _ _ _ _ _ _ _ _, rfl, ?_⟩
    rw [updateTransition_shown]
    simp only [isVisible, toNum, documentedPosition, Option.isNone_none, Option.isNone_some,
      Bool.true_or, Bool.false_or, Bool.and_true, Bool.true_and, decide_eq_false_iff_not]
    omega
  · intro t h1 h2
    refine ⟨updateTransition ⟨none, some 300, none, none, false⟩ (2 * t) (2 * t) 200 100 p0,
      updateTransition ⟨some 300, none, some 700, none, true⟩ (2 * t) (2 * t) 200 100 p2,
      ?_, ?_, ?_⟩
    · rw [scrollHandler_three]
      rw [← updateTransition_uncropped ⟨some 300, none, none, some 700, false⟩ (2 * t) (2 * t)
        200 100 p1
        (by simp [isVisible, toNum]; omega)
        (by simp [toNum]; omega) (by simp)
        (by simp) (by simp [toNum]; omega)]
      rfl
    · rw [updateTransition_shown]
      simp only [isVisible, toNum, Option.isNone_none, Option.isNone_some,
        Bool.true_or, Bool.false_or, Bool.and_true, Bool.true_and, decide_eq_false_iff_not]
      omega
    · rw [updateTransition_shown]
      simp [isVisible, toNum]
      omega
  · intro t ht
    refine ⟨updateTransition ⟨none, some 300, none, none, false⟩ (2 * t) (2 * t) 200 100 p0,
      updateTransition ⟨some 300, none, none, some 700, false⟩ (2 * t) (2 * t) 200 100 p1,
      ?_, ?_, ?_⟩
    · rw [scrollHandler_three]
      rw [← updateTransition_uncropped ⟨some 300, none, some 700, none, true⟩ (2 * t) (2 * t)
        200 100 p2
        (by simp [isVisible, toNum]; omega)
        (by simp [toNum]; omega) (by simp)
        (by simp [toNum]; omega) (by simp)]
      rfl
    · rw [updateTransition_shown]
      simp only [isVisible, toNum, Option.isNone_none, Option.isNone_some,
        Bool.true_or, Bool.false_or, Bool.and_true, Bool.true_and, decide_eq_false_iff_not]
      omega
    · rw [updateTransition_shown]
      simp [isVisible, toNum]
      omega

/-- C13 from the freshly created panels, at `t = 200` (the box is 400px
down the page): only panel 1 is shown, uncropped. -/
theorem C13_documented_behaviour_witness :
    ∃ R, resolveBounds documentedTransitions = some R ∧
      ∃ q0 q2, scrollHandler documentedPosition R 200 100 200
          ⟨0, 0, createPanels documentedTransitions 200 100⟩ =
          some { containerTop := 2 * 200, containerLeft := 2 * 200,
                 panels := [q0, { shown := true, frameTop := 0, frameLeft := 0,
                                  frameWidth := 200, frameHeight := 100,
                                  contentOffsetTop := 0, contentOffsetLeft := 0 }, q2] } ∧
        q0.shown = false ∧ q2.shown = false := by
  obtain ⟨R, hR, _, _, h3, _⟩ :=
    C13_documented_behaviour ⟨0, 0, createPanels documentedTransitions 200 100⟩ rfl
  exact ⟨R, hR, h3 200 (by decide) (by decide)⟩

/-! ## Bounds computation: the shape of the resolved bottoms and tops -/

theorem nextBottom_drop_none (B : List Bounds) (i k : Nat) (hik : i ≤ k)
    (h : nextBottom (B.drop i) = none) : nextBottom (B.drop k) = none := by
  rw [nextBottom_eq_none_iff] at h ⊢
  intro b hb
  apply h b
  obtain ⟨n, hn⟩ := List.mem_iff_getElem?.mp hb
  rw [List.getElem?_drop] at hn
  rw [List.mem_iff_getElem?]
  refine ⟨k - i + n, ?_⟩
  rw [List.getElem?_drop, ← hn]
  congr 1
  omega

/-- C15: the regions with an unbounded bottom form a suffix of the resolved
list: if the resolved bottom of region `i` is unbounded, so is the resolved
bottom of every region `k > i`. -/
theorem C15_unbounded_bottom_suffix (ts : List TransitionSpec) (i k : Nat) (bi bk : Bounds)
    (hik : i < k) (hi : regionAt (resolveBounds ts) i = some bi)
    (hk : regionAt (resolveBounds ts) k = some bk) (hb : bi.bottom = none) :
    bk.bottom = none := by
  obtain ⟨R, hR, hlen, _⟩ := resolveBounds_spec ts
  rw [hR] at hi hk
  simp only [regionAt] at hi hk
  have hi' : i < ts.length := by
    rw [← hlen]
    exact (List.getElem?_eq_some.mp hi).1
  have hk' : k < ts.length := by
    rw [← hlen]
    exact (List.getElem?_eq_some.mp hk).1
  obtain ⟨R1, b1, _, hR1, _, hb1, _, _, _, hbot1, _, _⟩ :=
    resolveBounds_fields ts i _ (List.getElem?_eq_getElem hi')
  obtain ⟨R2, b2, _, hR2, _, hb2, _, _, _, hbot2, _, _⟩ :=
    resolveBounds_fields ts k _ (List.getElem?_eq_getElem hk')
  rw [hR] at hR1 hR2
  cases hR1
  cases hR2
  rw [hi] at hb1
  rw [hk] at hb2
  cases hb1
  cases hb2
  rw [hbot2]
  rw [hbot1] at hb
  exact nextBottom_drop_none _ (i + 1) (k + 1) (by omega) hb

/-- C15 on the documented transitions: region 1 has an unbounded bottom, so
region 2 has one too. -/
theorem C15_unbounded_bottom_suffix_witness :
    regionAt (resolveBounds documentedTransitions) 1 =
      some ⟨some 300, none, none, some 700, false⟩ ∧
    regionAt (resolveBounds documentedTransitions) 2 =
      some ⟨some 300, none, some 700, none, true⟩ ∧
    (⟨some 300, none, some 700, none, true⟩ : Bounds).bottom = none :=
  ⟨by decide, by decide,
   C15_unbounded_bottom_suffix documentedTransitions 1 2
     ⟨some 300, none, none, some 700, false⟩ ⟨some 300, none, some 700, none, true⟩
     (by decide) (by decide) (by decide) rfl⟩

/-- The `top` the first loop gives entry `i`: the `at` of the nearest
transition `j <= i` that is not vertical and has a numeric `at`, if any. -/
theorem createBounds_top_nearest (ts : List TransitionSpec) :
    ∀ (i : Nat) (t : TransitionSpec) (b0 : Bounds), ts[i]? = some t →
      (createBounds ts)[i]? = some b0 →
      (∃ (j : Nat) (a : Int), j ≤ i ∧ ts[j]? = some ⟨some a, false⟩ ∧
        (∀ (j' : Nat) (t' : TransitionSpec), j < j' → j' ≤ i → ts[j']? = some t' →
          ¬ (t'.vertical = false ∧ t'.at_.isSome = true)) ∧
        b0.top = some a) ∨
      ((∀ (j : Nat) (t' : TransitionSpec), j ≤ i → ts[j]? = some t' →
          ¬ (t'.vertical = false ∧ t'.at_.isSome = true)) ∧
        b0.top = none) := by
  intro i
  induction i with
  | zero =>
    intro t b0 ht hb0
    obtain ⟨b0', hb0', htop⟩ := createBounds_top_zero ts t ht
    rw [hb0] at hb0'
    cases hb0'
    by_cases hz : t.vertical = false ∧ t.at_.isSome = true
    · left
      obtain ⟨a, ha⟩ := Option.isSome_iff_exists.mp hz.2
      refine ⟨0, a, le_refl _, ?_, ?_, ?_⟩
      · rw [ht]
        obtain ⟨ta, tv⟩ := t
        simp only at ha hz
        rw [ha, hz.1]
      · intro j' t' h1 h2
        omega
      · rw [htop, if_pos hz, ha]
    · right
      refine ⟨?_, ?_⟩
      · intro j t' hj ht'
        have hj0 : j = 0 := by omega
        subst hj0
        rw [ht] at ht'
        cases ht'
        exact hz
      · rw [htop, if_neg hz]
  | succ k ih =>
    intro t b0 ht hb0
    obtain ⟨p0, b1, hp0, hb1, htop⟩ := createBounds_top_succ ts k t ht
    rw [hb0] at hb1
    cases hb1
    have hk : k < ts.length := by
      have := (List.getElem?_eq_some.mp ht).1
      omega
    by_cases hz : t.vertical = false ∧ t.at_.isSome = true
    · left
      obtain ⟨a, ha⟩ := Option.isSome_iff_exists.mp hz.2
      refine ⟨k + 1, a, le_refl _, ?_, ?_, ?_⟩
      · rw [ht]
        obtain ⟨ta, tv⟩ := t
        simp only at ha hz
        rw [ha, hz.1]
      · intro j' t' h1 h2
        omega
      · rw [htop, if_pos hz, ha]
    · rw [if_neg hz] at htop
      rcases ih ts[k] p0 (List.getElem?_eq_getElem hk) hp0 with
        ⟨j, a, hj, hja, hbetween, hpa⟩ | ⟨hnone, hpn⟩
      · left
        refine ⟨j, a, by omega, hja, ?_, by rw [htop, hpa]⟩
        intro j' t' h1 h2 ht'
        by_cases hlast : j' = k + 1
        · subst hlast
          rw [ht] at ht'
          cases ht'
          exact hz
        · exact hbetween j' t' h1 (by omega) ht'
      · right
        refine ⟨?_, by rw [htop, hpn]⟩
        intro j t' hj ht'
        by_cases hlast : j = k + 1
        · subst hlast
          rw [ht] at ht'
          cases ht'
          exact hz
        · exact hnone j t' (by omega) ht'

/-- C17: the resolved top of region `i` is the `at` of the nearest spec
`j <= i` that is not vertical and has a numeric `at`, and is unbounded when
there is no such spec; the backward pass leaves every top as the first loop
set it. -/
theorem C17_top_inherited (ts : List TransitionSpec) (i : Nat) (t : TransitionSpec)
    (h : ts[i]? = some t) :
    ∃ R b b0, resolveBounds ts = some R ∧ R[i]? = some b ∧
      (createBounds ts)[i]? = some b0 ∧ b.top = b0.top ∧
      ((∃ (j : Nat) (a : Int), j ≤ i ∧ ts[j]? = some ⟨some a, false⟩ ∧
          (∀ (j' : Nat) (t' : TransitionSpec), j < j' → j' ≤ i → ts[j']? = some t' →
            ¬ (t'.vertical = false ∧ t'.at_.isSome = true)) ∧
          b.top = some a) ∨
        ((∀ (j : Nat) (t' : TransitionSpec), j ≤ i → ts[j]? = some t' →
            ¬ (t'.vertical = false ∧ t'.at_.isSome = true)) ∧
          b.top = none)) := by
  obtain ⟨R, b, b0, hR, _, hRi, hB, _, htop, _, _, _⟩ := resolveBounds_fields ts i t h
  refine ⟨R, b, b0, hR, hRi, hB, htop, ?_⟩
  rw [htop]
  exact createBounds_top_nearest ts i t b0 h hB

/-- C17 on the documented transitions: region 2 (a vertical spec) has the
top 300 declared by spec 1. -/
theorem C17_top_inherited_witness :
    ∃ R b b0, resolveBounds documentedTransitions = some R ∧ R[2]? = some b ∧
      (createBounds documentedTransitions)[2]? = some b0 ∧ b.top = b0.top ∧
      b.top = some 300 := by
  obtain ⟨R, b, b0, hR, hb, hb0, htop, hcase⟩ :=
    C17_top_inherited documentedTransitions 2 ⟨some 700, true⟩ rfl
  refine ⟨R, b, b0, hR, hb, hb0, htop, ?_⟩
  have hR' : resolveBounds documentedTransitions =
      some [⟨none, some 300, none, none, false⟩, ⟨some 300, none, none, some 700, false⟩,
            ⟨some 300, none, some 700, none, true⟩] := by decide
  rw [hR'] at hR
  cases hR
  simp only [List.getElem?_cons_succ, List.getElem?_cons_zero, Option.some.injEq] at hb
  rw [← hb]

/-! ## Bounds computation: the carried bottom -/

theorem interpolateUntil_invariant (B : List Bounds) (stop : Nat) (c : Nat) :
    ∀ (st : List Bounds) (tracked : Option Int), stop ≤ c → c ≤ B.length - 1 →
      (∀ i, st[i]? = (B[i]?).map (interpolated B c i)) →
      tracked = nextBottom (B.drop (c + 1)) →
      ∃ st', interpolateUntil stop c st tracked = some (st', nextBottom (B.drop (stop + 1))) ∧
        ∀ i, st'[i]? = (B[i]?).map (interpolated B stop i) := by
  induction c with
  | zero =>
    intro st tracked hs _ hst htr
    have h0 : stop = 0 := by omega
    subst h0
    exact ⟨st, by rw [htr]; rfl, hst⟩
  | succ c ih =>
    intro st tracked hs hc hst htr
    by_cases hstop : c + 1 ≤ stop
    · have heq : stop = c + 1 := by omega
      subst heq
      refine ⟨st, ?_, hst⟩
      simp only [interpolateUntil, if_pos (le_refl _), htr]
    · obtain ⟨st1, hstep, hst1⟩ :=
        interpolateStep_invariant B st tracked c (by omega) hst htr
      obtain ⟨st', hrun, hst'⟩ := ih st1 (nextBottom (B.drop (c + 1))) (by omega) (by omega)
        hst1 rfl
      refine ⟨st', ?_, hst'⟩
      simp only [interpolateUntil, if_neg hstop, hstep]
      exact hrun

/-- C18: for every index `i < n - 1` the resolved bottom of region `i` is
the top of region `i + 1` when spec `i + 1` is not vertical and that top is
a concrete number, and is the resolved bottom of region `i + 1` in every
other case; and when the loop is about to run for index `i`, the carried
`bottom` is the resolved bottom of region `i + 1` (the loop, continued from
that state, returns the resolved array). -/
theorem C18_bottom_recurrence (ts : List TransitionSpec) (i : Nat) (t : TransitionSpec)
    (h : ts[i + 1]? = some t) :
    ∃ R b nb, resolveBounds ts = some R ∧ R[i]? = some b ∧ R[i + 1]? = some nb ∧
      (t.vertical = false ∧ nb.top.isSome = true → b.bottom = nb.top) ∧
      (¬ (t.vertical = false ∧ nb.top.isSome = true) → b.bottom = nb.bottom) ∧
      ∃ st tracked,
        interpolateUntil (i + 1) ((createBounds ts).length - 1) (createBounds ts) none =
          some (st, tracked) ∧
        interpolateLoop (i + 1) st tracked = some R ∧
        tracked = nb.bottom := by
  have hlt : i + 1 < ts.length := (List.getElem?_eq_some.mp h).1
  have hti : ts[i]? = some ts[i] := List.getElem?_eq_getElem (by omega)
  obtain ⟨R, b, _, hR, hlen, hRi, _, _, _, hbot, _, _⟩ := resolveBounds_fields ts i _ hti
  obtain ⟨R', nb, nb0, hR', _, hRn, hBn, hvert, htop, hnbot, _, _⟩ :=
    resolveBounds_fields ts (i + 1) t h
  rw [hR] at hR'
  cases hR'
  have hBlen : (createBounds ts).length = ts.length := createBounds_length ts
  have hdrop : (createBounds ts).drop (i + 1) = nb0 :: (createBounds ts).drop (i + 1 + 1) := by
    rw [List.drop_eq_getElem_cons (by omega)]
    congr 1
    have := List.getElem?_eq_getElem (l := createBounds ts) (n := i + 1) (by omega)
    rw [hBn] at this
    exact (Option.some.inj this).symm
  have hnbv : nb0.vertical = t.vertical := by
    rw [createBounds_getElem? ts (i + 1) t h] at hBn
    cases hBn
    exact (transitionBounds_fields _ _).2.2.1
  rw [hdrop] at hbot
  simp only [nextBottom] at hbot
  rw [hnbv, ← htop] at hbot
  refine ⟨R, b, nb, hR, hRi, hRn, ?_, ?_, ?_⟩
  · intro hc
    rw [hbot, if_pos hc]
  · intro hc
    rw [hbot, if_neg hc, hnbot]
  · obtain ⟨st, hrun, hst⟩ := interpolateUntil_invariant (createBounds ts) (i + 1)
      ((createBounds ts).length - 1) (createBounds ts) none (by omega) (le_refl _)
      (interpolated_initial _ (createBounds_open ts))
      (by rw [List.drop_of_length_le (by omega)]; rfl)
    obtain ⟨R2, hR2, hR2i⟩ := interpolateLoop_invariant (createBounds ts) (i + 1) st
      (nextBottom ((createBounds ts).drop (i + 1 + 1))) (by omega) hst rfl
    obtain ⟨R3, hR3, _, hR3i⟩ := resolveBounds_spec ts
    rw [hR] at hR3
    cases hR3
    have hRR : R2 = R := by
      apply List.ext_getElem?
      intro k
      rw [hR2i k, hR3i k]
    rw [hRR] at hR2
    exact ⟨st, _, hrun, hR2, hnbot.symm⟩

/-- C18 on `[{}, {vertical: true}, {at: 500}]`: region 0 inherits the
bottom 500 of region 1 across the vertical spec. -/
theorem C18_bottom_recurrence_witness :
    ∃ R b nb, resolveBounds [⟨none, false⟩, ⟨none, true⟩, ⟨some 500, false⟩] = some R ∧
      R[0]? = some b ∧ R[1]? = some nb ∧ b.bottom = nb.bottom := by
  obtain ⟨R, b, nb, hR, hb, hnb, _, h2, _⟩ :=
    C18_bottom_recurrence [⟨none, false⟩, ⟨none, true⟩, ⟨some 500, false⟩] 0 ⟨none, true⟩ rfl
  exact ⟨R, b, nb, hR, hb, hnb, h2 (by simp)⟩

/-! ## Hand-off in a purely horizontal stack -/

theorem updateTransitions_eq_zipWith (bounds : List Bounds) (x y width height : Int) :
    ∀ (ps : List PanelState) (i : Nat) (ps' : List PanelState),
      updateTransitions bounds x y width height i ps = some ps' →
      ps' = List.zipWith (fun b p => updateTransition b x y width height p)
        (bounds.drop i) ps := by
  intro ps
  induction ps with
  | nil =>
    intro i ps' h
    simp only [updateTransitions, Option.some.injEq] at h
    subst h
    simp
  | cons p0 ps ih =>
    intro i ps' h
    simp only [updateTransitions] at h
    cases hb : bounds[i]? with
    | none => simp [hb] at h
    | some b =>
      cases hr : updateTransitions bounds x y width height (i + 1) ps with
      | none => simp [hb, hr] at h
      | some rest =>
        simp only [hb, hr, Option.some.injEq] at h
        subst h
        have hi : i < bounds.length := (List.getElem?_eq_some.mp hb).1
        have hbi : bounds[i] = b := (List.getElem?_eq_some.mp hb).2
        rw [List.drop_eq_getElem_cons hi, hbi, List.zipWith_cons_cons, ← ih (i + 1) rest hr]

theorem shown_frameHeight (b : Bounds) (x y width height : Int) (p : PanelState) :
    (if (updateTransition b x y width height p).shown = true then
        (updateTransition b x y width height p).frameHeight else 0) =
      (if isVisible b x y width height = true then
        (if (b.top.isSome && decide (y < toNum b.top)) = true then
          (if (b.bottom.isSome && decide (y + height > toNum b.bottom)) = true then
            toNum b.bottom - toNum b.top else height + y - toNum b.top)
        else
          (if (b.bottom.isSome && decide (y + height > toNum b.bottom)) = true then
            toNum b.bottom - y else height))
       else 0) := by
  rw [updateTransition_shown]
  cases hv : isVisible b x y width height with
  | false => rfl
  | true =>
    simp only [if_true]
    exact (updateTransition_vertical b x y width height p hv).1

/-- The shown heights of a horizontal stack add up to the part of the
container `[y, y + height)` that lies below `top`. -/
theorem stacked_shownHeight (x y width height : Int) (hh : 0 ≤ height) :
    ∀ (as : List Int) (top : Option Int) (ps : List PanelState),
      ps.length = as.length + 1 →
      (∀ tp a, top = some tp → as[0]? = some a → tp ≤ a) →
      (∀ (i : Nat) (a b : Int), as[i]? = some a → as[i + 1]? = some b → a ≤ b) →
      shownHeight (List.zipWith (fun b p => updateTransition b x y width height p)
          (stackedRegions top as) ps) =
        (match top with
         | none => height
         | some tp => if y + height > tp then y + height - max y tp else 0) := by
  intro as
  induction as with
  | nil =>
    intro top ps hlen _ _
    match ps, hlen with
    | [p], _ =>
      simp only [stackedRegions, List.zipWith_cons_cons, List.zipWith_nil_right, shownHeight,
        add_zero]
      rw [shown_frameHeight]
      cases top with
      | none => simp [isVisible, toNum]
      | some tp =>
        simp only [isVisible, toNum, Option.isNone_some, Option.isNone_none, Bool.false_or,
          Bool.true_or, Bool.and_true, Option.isSome_some, Option.isSome_none, Bool.true_and,
          Bool.false_and, decide_eq_true_eq, Bool.false_eq_true, if_false]
        split_ifs <;> omega
  | cons a rest ih =>
    intro top ps hlen htop hmono
    match ps, hlen with
    | p :: ps', hlen' =>
      simp only [List.length_cons, add_left_inj] at hlen'
      have hrest := ih (some a) ps' hlen'
        (fun tp b htp hb => by
          cases htp
          exact hmono 0 a b (by simp) (by simpa using hb))
        (fun i c e hc he => hmono (i + 1) c e (by simpa using hc) (by simpa using he))
      simp only [stackedRegions, List.zipWith_cons_cons, shownHeight]
      rw [hrest, shown_frameHeight]
      cases top with
      | none =>
        simp only [isVisible, toNum, Option.isNone_some, Option.isNone_none, Bool.false_or,
          Bool.true_or, Bool.and_true, Option.isSome_some, Option.isSome_none, Bool.true_and,
          Bool.false_and, decide_eq_true_eq, Bool.false_eq_true, if_false]
        split_ifs <;> omega
      | some tp =>
        have hle := htop tp a rfl (by simp)
        simp only [isVisible, toNum, Option.isNone_some, Option.isNone_none, Bool.false_or,
          Bool.true_or, Bool.and_true, Option.isSome_some, Option.isSome_none, Bool.true_and,
          Bool.false_and, decide_eq_true_eq, Bool.false_eq_true, if_false, Bool.and_eq_true]
        split_ifs <;> omega

theorem stackedRegions_getElem? :
    ∀ (as : List Int) (top : Option Int) (i : Nat),
      (stackedRegions top as)[i]? =
        if i ≤ as.length then
          some { top := (match i with
                         | 0 => top
                         | k + 1 => as[k]?),
                 bottom := as[i]?, left := none, right := none, vertical := false }
        else none := by
  intro as
  induction as with
  | nil =>
    intro top i
    cases i with
    | zero => simp [stackedRegions]
    | succ k => simp [stackedRegions]
  | cons a rest ih =>
    intro top i
    cases i with
    | zero => simp [stackedRegions]
    | succ k =>
      simp only [stackedRegions, List.getElem?_cons_succ, ih (some a) k, List.length_cons,
        add_le_add_iff_right]
      cases k with
      | zero => simp
      | succ j => simp

/-- The regions resolved from a purely horizontal stack of transitions: no
vertical spec, no breakpoint on the first, a numeric `at` on every other. -/
theorem resolveBounds_stacked (t0 : TransitionSpec) (rest : List TransitionSpec)
    (hvert : ∀ t' ∈ t0 :: rest, t'.vertical = false)
    (h0 : t0.at_ = none)
    (hat : ∀ t' ∈ rest, t'.at_.isSome = true) :
    resolveBounds (t0 :: rest) =
      some (stackedRegions none (rest.map (fun t' => toNum t'.at_))) := by
  obtain ⟨R, hR, hlen, _⟩ := resolveBounds_spec (t0 :: rest)
  rw [hR]
  congr 1
  apply List.ext_getElem?
  intro i
  rw [stackedRegions_getElem?]
  simp only [List.length_map]
  by_cases hi : i < (t0 :: rest).length
  · have hti : (t0 :: rest)[i]? = some (t0 :: rest)[i] := List.getElem?_eq_getElem hi
    obtain ⟨R', b, b0, hR', _, hRi, hB, hv, htop, hbot, hleft, hright⟩ :=
      resolveBounds_fields (t0 :: rest) i _ hti
    rw [hR] at hR'
    cases hR'
    have hvi : ((t0 :: rest)[i]).vertical = false := hvert _ (List.getElem_mem _)
    simp only [List.length_cons] at hi
    rw [hRi, if_pos (by omega)]
    congr 1
    obtain ⟨bt, bb, bl, br, bv⟩ := b
    simp only at hv htop hbot hleft hright
    simp only [Bounds.mk.injEq]
    refine ⟨?_, ?_, ?_, ?_, ?_⟩
    · -- top
      rw [htop]
      cases i with
      | zero =>
        obtain ⟨b0', hb0', ht0⟩ := createBounds_top_zero (t0 :: rest) t0 (by simp)
        rw [hB] at hb0'
        cases hb0'
        rw [ht0, h0]
        simp
      | succ k =>
        have hk : k < rest.length := by omega
        have htk : (t0 :: rest)[k + 1]? = some rest[k] := by
          simp [List.getElem?_eq_getElem hk]
        obtain ⟨p0, b1, _, hb1, ht1⟩ := createBounds_top_succ (t0 :: rest) k rest[k] htk
        rw [hB] at hb1
        cases hb1
        have hsome := hat rest[k] (List.getElem_mem _)
        have hvk := hvert rest[k] (List.mem_cons_of_mem _ (List.getElem_mem _))
        rw [ht1, if_pos ⟨hvk, hsome⟩]
        obtain ⟨a, ha⟩ := Option.isSome_iff_exists.mp hsome
        simp [List.getElem?_eq_getElem hk, ha, toNum]
    · -- bottom
      rw [hbot]
      by_cases hnext : i < rest.length
      · have htn : (t0 :: rest)[i + 1]? = some rest[i] := by
          simp [List.getElem?_eq_getElem hnext]
        have hsome := hat rest[i] (List.getElem_mem _)
        have hvk := hvert rest[i] (List.mem_cons_of_mem _ (List.getElem_mem _))
        have hBn := createBounds_getElem? (t0 :: rest) (i + 1) rest[i] htn
        have hBlen : i + 1 < (createBounds (t0 :: rest)).length := by
          rw [createBounds_length]
          simp only [List.length_cons]
          omega
        have hBget := (List.getElem?_eq_some.mp hBn).2
        rw [List.drop_eq_getElem_cons hBlen, hBget]
        obtain ⟨_, _, hv', _, htop'⟩ := transitionBounds_fields
          ((createBounds (t0 :: rest)).take (i + 1)) rest[i]
        have htop2 : (transitionBounds ((createBounds (t0 :: rest)).take (i + 1)) rest[i]).top =
            rest[i].at_ := by
          rw [htop', if_pos ⟨hvk, hsome⟩]
        simp only [nextBottom]
        rw [hv', htop2, if_pos ⟨hvk, hsome⟩]
        obtain ⟨a, ha⟩ := Option.isSome_iff_exists.mp hsome
        simp [List.getElem?_eq_getElem hnext, ha, toNum]
      · rw [List.drop_of_length_le (by
          rw [createBounds_length]
          simp only [List.length_cons]
          omega)]
        simp only [nextBottom]
        rw [List.getElem?_eq_none (by simp only [List.length_map]; omega)]
    · rw [hleft, if_neg (by simp [hvi])]
    · rw [hright]
      cases hn : (t0 :: rest)[i + 1]? with
      | none => rfl
      | some nx =>
        have hmem : nx ∈ t0 :: rest := List.mem_iff_getElem?.mpr ⟨i + 1, hn⟩
        simp only
        rw [if_neg (by simp [hvert nx hmem])]
    · rw [hv, hvi]
  · simp only [List.length_cons] at hi
    rw [List.getElem?_eq_none (by rw [hlen]; simp only [List.length_cons]; omega),
      if_neg (by omega)]

theorem stackedRegions_open_sides :
    ∀ (as : List Int) (top : Option Int) (b : Bounds), b ∈ stackedRegions top as →
      b.left = none ∧ b.right = none := by
  intro as
  induction as with
  | nil =>
    intro top b hb
    simp only [stackedRegions, List.mem_singleton] at hb
    subst hb
    exact ⟨rfl, rfl⟩
  | cons a rest ih =>
    intro top b hb
    simp only [stackedRegions, List.mem_cons] at hb
    rcases hb with hb | hb
    · subst hb
      exact ⟨rfl, rfl⟩
    · exact ih (some a) b hb

/-- C20: for a spec list of length `n >= 1` without vertical specs, whose
first spec has no breakpoint and whose later specs have numeric,
non-decreasing `at` values, and a container of height `>= 0` at any
position: the `frameHeight` values of the shown panels, computed by the
handler on the resolved regions, add up to the container height, and every
shown panel has `frameLeft = 0` and `frameWidth = width`. -/
theorem C20_handoff_no_gap_no_overlap (ts : List TransitionSpec) (position : Int → Position)
    (width height t : Int) (d : Display)
    (hne : ts ≠ [])
    (hvert : ∀ t' ∈ ts, t'.vertical = false)
    (h0 : ∀ t', ts[0]? = some t' → t'.at_ = none)
    (hat : ∀ (i : Nat) (t' : TransitionSpec), 0 < i → ts[i]? = some t' →
      t'.at_.isSome = true)
    (hmono : ∀ (i j : Nat) (ti tj : TransitionSpec) (a b : Int), 0 < i → i ≤ j →
      ts[i]? = some ti → ts[j]? = some tj → ti.at_ = some a → tj.at_ = some b → a ≤ b)
    (hh : 0 ≤ height) (hd : d.panels.length = ts.length) :
    ∃ R d', resolveBounds ts = some R ∧
      scrollHandler position R width height t d = some d' ∧
      shownHeight d'.panels = height ∧
      ∀ p ∈ d'.panels, p.shown = true → p.frameLeft = 0 ∧ p.frameWidth = width := by
  match ts, hne with
  | t0 :: rest, _ =>
    have hR := resolveBounds_stacked t0 rest hvert (h0 t0 (by simp))
      (fun t' hm => by
        obtain ⟨n, hn⟩ := List.mem_iff_getElem?.mp hm
        exact hat (n + 1) t' (by omega) (by simpa using hn))
    obtain ⟨R', hR', hlen, _⟩ := resolveBounds_spec (t0 :: rest)
    rw [hR] at hR'
    cases hR'
    obtain ⟨ps', hu, hl⟩ := updateTransitions_isSome
      (stackedRegions none (rest.map (fun t' => toNum t'.at_)))
      (position t).left (position t).top width height d.panels 0 (by omega)
    refine ⟨_, { containerTop := (position t).top, containerLeft := (position t).left,
                 panels := ps' }, hR, ?_, ?_, ?_⟩
    · simp only [scrollHandler, hu]
    · simp only
      rw [updateTransitions_eq_zipWith _ _ _ _ _ d.panels 0 ps' hu, List.drop_zero,
        stacked_shownHeight (position t).left (position t).top width height hh _ none d.panels
          (by simpa using hd) (fun tp a htp _ => by cases htp) ?_]
      intro i a b ha hb
      simp only [List.getElem?_map, Option.map_eq_some'] at ha hb
      obtain ⟨ti, hti, hta⟩ := ha
      obtain ⟨tj, htj, htb⟩ := hb
      have hi := hat (i + 1) ti (by omega) (by simpa using hti)
      have hj := hat (i + 2) tj (by omega) (by simpa using htj)
      obtain ⟨a', ha'⟩ := Option.isSome_iff_exists.mp hi
      obtain ⟨b', hb'⟩ := Option.isSome_iff_exists.mp hj
      rw [ha'] at hta
      rw [hb'] at htb
      simp only [toNum] at hta htb
      subst hta htb
      exact hmono (i + 1) (i + 2) ti tj a' b' (by omega) (by omega) (by simpa using hti)
        (by simpa using htj) ha' hb'
    · intro p hp hshown
      simp only at hp
      obtain ⟨k, hk⟩ := List.mem_iff_getElem?.mp hp
      have hk' : k < d.panels.length := by
        rw [← hl]
        exact (List.getElem?_eq_some.mp hk).1
      obtain ⟨_, hget⟩ := updateTransitions_getElem? _ _ _ _ _ d.panels 0 ps' hu
      obtain ⟨b, hb, hq⟩ := hget k _ (List.getElem?_eq_getElem hk')
      rw [hk] at hq
      cases hq
      obtain ⟨hbl, hbr⟩ := stackedRegions_open_sides _ _ b (List.mem_iff_getElem?.mpr ⟨_, hb⟩)
      rw [updateTransition_shown] at hshown
      obtain ⟨hW, hL, _⟩ := updateTransition_horizontal b _ _ _ _ d.panels[k] hshown
      rw [hW, hL, hbl, hbr]
      exact ⟨rfl, rfl⟩

/-- C20 on `[{}, {at: 10}, {at: 10}, {at: 30}]` with a container of height
25 at `y = 7`: the shown heights 3, 0, 20 and 2 add up to 25. -/
theorem C20_handoff_no_gap_no_overlap_witness :
    ∃ R d', resolveBounds [⟨none, false⟩, ⟨some 10, false⟩, ⟨some 10, false⟩,
        ⟨some 30, false⟩] = some R ∧
      scrollHandler (fun t => ⟨t, 0⟩) R 50 25 7
        ⟨0, 0, createPanels [⟨none, false⟩, ⟨some 10, false⟩, ⟨some 10, false⟩,
          ⟨some 30, false⟩] 50 25⟩ = some d' ∧
      shownHeight d'.panels = 25 ∧
      ∀ p ∈ d'.panels, p.shown = true → p.frameLeft = 0 ∧ p.frameWidth = 50 :=
  C20_handoff_no_gap_no_overlap
    [⟨none, false⟩, ⟨some 10, false⟩, ⟨some 10, false⟩, ⟨some 30, false⟩]
    (fun t => ⟨t, 0⟩) 50 25 7
    ⟨0, 0, createPanels [⟨none, false⟩, ⟨some 10, false⟩, ⟨some 10, false⟩,
      ⟨some 30, false⟩] 50 25⟩
    (by decide) (by decide) (by decide)
    (by
      intro i t' hi ht
      match i, hi, ht with
      | 1, _, ht => cases ht; rfl
      | 2, _, ht => cases ht; rfl
      | 3, _, ht => cases ht; rfl
      | n + 4, _, ht => simp at ht)
    (by
      intro i j ti tj a b hi hij hti htj ha hb
      have hj4 : j < 4 := (List.getElem?_eq_some.mp htj).1
      have hcases : (i = 1 ∨ i = 2 ∨ i = 3) ∧ (j = 1 ∨ j = 2 ∨ j = 3) := by omega
      rcases hcases with ⟨h1 | h1 | h1, h2 | h2 | h2⟩ <;> subst h1 <;> subst h2 <;>
        first
        | omega
        | (cases hti; cases htj; cases ha; cases hb; decide))
    (by decide) rfl

end Plunge
